import Mathlib

/-!
Verification of the core of the msgp code generator (github.com/dchenk/msgp)
against its natural-language specification.

The development shallowly embeds:
  * the type-model IR (`gen/elem.go`): `Primitive`, `ShimMode`, `BaseData`,
    `Elem`/`Fields`, with `complexity`, `typeName`, `copy`, `setVarname`;
  * the identifier generator (`resetIdent`/`randIdent`) as explicit state,
    instrumented with a ghost `minted` log so that claims about generated
    identifiers can be stated;
  * the shim substitution (`gen/inline.go`: `findShim`/`nextShim`);
  * the alias resolver (`gen/source.go`: `process`/`resolve`), with the
    unbounded progress loop replaced by an equivalent fuel bound
    (every progressing sweep removes at least one pending entry, so
    `pending.length + 1` sweeps reproduce the Go fixpoint);
  * the directive applier (`gen/source.go` third section: `applyDirectives`,
    `applyShim`, `ignore`, `astuple`, `typeNameMatches`), with Go's
    `regexp.MustCompile` panic modelled in an abort monad and the regexp
    engine itself (standard library, not in this repository) supplied as a
    parameter;
  * the Decode, Unmarshal and Encode emission passes (`gen/decode.go`,
    `gen/unmarshal.go`, `gen/encode.go`), producing the exact emitted text
    plus the list of `var` declarations that `printer.declare` writes;
  * the MessagePack integer readers (`msgp/read.go` `Reader.ReadInt64`,
    `Reader.ReadInt8`; `msgp/read_bytes.go` `ReadInt64Bytes`, `ReadInt8Bytes`)
    over byte lists, with bytes as `Nat` and signed results as `Int`.

Go map iteration order is unspecified; where the source ranges over a map the
model uses association lists in insertion order (the settled claims do not
depend on the order, or are proved for the order-independent content).
I/O errors of output sinks are external and never occur in the pure model, so
`printer.ok()` guards are always taken.
-/

namespace Msgp

/-- The primitive kinds of `gen/elem.go` (`type primitive uint8`).
`str` is the source's `String`, `intf` is `Intf` (interface), `time` is
`Time`, `extension` is `Ext`, `ident` is `IDENT`. -/
inductive Primitive where
  | invalid
  | bytes
  | str
  | float32
  | float64
  | complex64
  | complex128
  | uint
  | uint8
  | uint16
  | uint32
  | uint64
  | byte
  | int
  | int8
  | int16
  | int32
  | int64
  | bool
  | intf
  | time
  | extension
  | ident
  deriving DecidableEq, Repr

/-- String form of a primitive (`primitive.String` in `gen/elem.go`). -/
def Primitive.toStr : Primitive → String
  | .str => "String"
  | .bytes => "Bytes"
  | .float32 => "Float32"
  | .float64 => "Float64"
  | .complex64 => "Complex64"
  | .complex128 => "Complex128"
  | .uint => "Uint"
  | .uint8 => "Uint8"
  | .uint16 => "Uint16"
  | .uint32 => "Uint32"
  | .uint64 => "Uint64"
  | .byte => "Byte"
  | .int => "Int"
  | .int8 => "Int8"
  | .int16 => "Int16"
  | .int32 => "Int32"
  | .int64 => "Int64"
  | .bool => "Bool"
  | .intf => "Intf"
  | .time => "time.Time"
  | .extension => "Extension"
  | .ident => "Ident"
  | .invalid => "INVALID"

/-- The `primitives` map of `gen/elem.go`: recognized identities having a
corresponding primitive type. -/
def primitives (id : String) : Option Primitive :=
  if id = "[]byte" then some .bytes
  else if id = "string" then some .str
  else if id = "float32" then some .float32
  else if id = "float64" then some .float64
  else if id = "complex64" then some .complex64
  else if id = "complex128" then some .complex128
  else if id = "uint" then some .uint
  else if id = "uint8" then some .uint8
  else if id = "uint16" then some .uint16
  else if id = "uint32" then some .uint32
  else if id = "uint64" then some .uint64
  else if id = "byte" then some .byte
  else if id = "rune" then some .int32
  else if id = "int" then some .int
  else if id = "int8" then some .int8
  else if id = "int16" then some .int16
  else if id = "int32" then some .int32
  else if id = "int64" then some .int64
  else if id = "bool" then some .bool
  else if id = "interface\x7b\x7d" then some .intf
  else if id = "time.Time" then some .time
  else if id = "msgp.Extension" then some .extension
  else none

/-- The `builtIns` map of `gen/elem.go`: library types satisfying all the
generated interfaces. -/
def builtIns (id : String) : Bool :=
  id = "msgp.Raw" || id = "msgp.Number"

/-- ShimMode of `gen/elem.go`: whether a shim converts by cast or by
error-returning function call. -/
inductive ShimMode where
  | cast
  | convert
  deriving DecidableEq, Repr

/-- The fields of `BaseElem` in `gen/elem.go`, together with the `common`
struct's `vname` and `alias` carried by every element. -/
structure BaseData where
  vname : String := ""
  alias_ : String := ""
  shimMode : ShimMode := .cast
  shimToBase : String := ""
  shimFromBase : String := ""
  value : Primitive := .invalid
  convert : Bool := false
  mustinline : Bool := false
  needsref : Bool := false
  deriving DecidableEq, Repr

mutual
/-- The type-declaration tree of `gen/elem.go`: `*BaseElem`, `*Ptr`,
`*Slice`, `*Array`, `*Map` and `*Struct`, each with the embedded `common`
fields (`vname`, `alias`). -/
inductive Elem where
  | base (b : BaseData)
  | ptr (vname alias_ : String) (value : Elem)
  | slice (vname alias_ : String) (index : String) (els : Elem)
  | arr (vname alias_ : String) (index : String) (size : String) (els : Elem)
  | mp (vname alias_ : String) (keyIndx valIndx : String) (value : Elem)
  | strct (vname alias_ : String) (asTuple : Bool) (fields : Fields)
  deriving DecidableEq, Repr

/-- The `[]structField` of a `Struct`, kept as a mutually-inductive list so
that structural recursion over the tree is available. Each field carries
`fieldTag`, `rawTag`, `fieldName` and the field's element. -/
inductive Fields where
  | nil
  | cons (fieldTag rawTag fieldName : String) (fieldElem : Elem) (rest : Fields)
  deriving DecidableEq, Repr
end

namespace Elem

/-- The `Varname()` accessor common to every element. -/
def varname : Elem → String
  | .base b => b.vname
  | .ptr v _ _ => v
  | .slice v _ _ _ => v
  | .arr v _ _ _ _ => v
  | .mp v _ _ _ _ => v
  | .strct v _ _ _ => v

/-- The stored `alias` field common to every element (read access). -/
def aliasField : Elem → String
  | .base b => b.alias_
  | .ptr _ a _ => a
  | .slice _ a _ _ => a
  | .arr _ a _ _ _ => a
  | .mp _ a _ _ _ => a
  | .strct _ a _ _ => a

mutual
/-- Complexity of an element (`Complexity()` in `gen/elem.go`): a measure of
the number of children of the node, at least 1 everywhere. -/
def complexity : Elem → Nat
  | .base b => if b.convert && !b.mustinline then 2 else 1
  | .ptr _ _ v => 1 + complexity v
  | .slice _ _ _ els => 1 + complexity els
  | .arr _ _ _ _ els => 1 + complexity els
  | .mp _ _ _ _ v => 2 + complexity v
  | .strct _ _ _ fs => 1 + complexityFields fs
termination_by structural e => e

/-- Sum of the complexities of a struct's fields (the loop body of
`Struct.Complexity`). -/
def complexityFields : Fields → Nat
  | .nil => 0
  | .cons _ _ _ e rest => complexity e + complexityFields rest
termination_by structural fs => fs
end

end Elem

/-- Printable of a `BaseElem` (`gen/elem.go`): not marked must-inline. -/
def BaseData.printable (b : BaseData) : Bool := !b.mustinline

open Elem

/-- The field elements of a `Fields` list, in declaration order. -/
def Fields.elems : Fields → List Elem
  | .nil => []
  | .cons _ _ _ e rest => e :: Fields.elems rest

/-- Go's strings.Contains: does s contain sub as a substring. -/
def goContains (s sub : String) : Bool := decide (sub.data <:+: s.data)

/-- Go's strings.HasPrefix. -/
def goHasPref (s p : String) : Bool := decide (p.data <+: s.data)

/-- Lowercasing as used by `BaseElem.BaseType` (strings.ToLower on the
ASCII names produced by `primitive.String`). -/
def goToLower (s : String) : String := String.mk (s.data.map Char.toLower)

/-- BaseName of a base element (`gen/elem.go`): the string form of the base
type, with the package prefix stripped for time values. -/
def BaseData.baseName (b : BaseData) : String :=
  if b.value = .time then "Time" else b.value.toStr

/-- BaseType of a base element (`gen/elem.go`). For `IDENT` the source
returns `s.TypeName()`, which is the stored alias whenever one is set (and
diverges otherwise; the model returns the stored alias, which every `IDENT`
produced by `Ident` carries). -/
def BaseData.baseType (b : BaseData) : String :=
  match b.value with
  | .ident => b.alias_
  | .intf => "interface\x7b\x7d"
  | .bytes => "[]byte"
  | .time => "time.Time"
  | .extension => "msgp.Extension"
  | _ => goToLower b.baseName

mutual
/-- TypeName of an element (`gen/elem.go`): the stored alias when set,
otherwise the canonical Go type name computed from the structure. The Go
methods memoize the computed name into the alias field; the memoized value
equals this function's result, so the model is the pure fixpoint. -/
def typeName : Elem → String
  | .base b => if b.alias_ = "" then b.baseType else b.alias_
  | .ptr _ a v => if a = "" then "*" ++ typeName v else a
  | .slice _ a _ els => if a = "" then "[]" ++ typeName els else a
  | .arr _ a _ sz els => if a = "" then "[" ++ sz ++ "]" ++ typeName els else a
  | .mp _ a _ _ v => if a = "" then "map[string]" ++ typeName v else a
  | .strct _ a _ fs =>
      if a = "" then "struct\x7b\n" ++ typeNameFields fs ++ "\x7d" else a
termination_by structural e => e

/-- The per-field lines of `Struct.TypeName`. -/
def typeNameFields : Fields → String
  | .nil => ""
  | .cons _ raw nm e rest =>
      nm ++ " " ++ typeName e ++ " " ++ raw ++ "\n" ++ typeNameFields rest
termination_by structural fs => fs
end

/-- Alias on a `BaseElem` (`BaseElem.Alias` in `gen/elem.go`): store the
name; set Convert when the element is not an unresolved identifier; mark
must-inline when the name is qualified (contains a dot). -/
def BaseData.aliasSet (b : BaseData) (t : String) : BaseData :=
  { b with
    alias_ := t
    convert := if b.value = .ident then b.convert else true
    mustinline := if goContains t "." then true else b.mustinline }

/-- Alias on an arbitrary element (the `Alias` interface method; only
`BaseElem` overrides `common.Alias`). -/
def Elem.aliasSet : Elem → String → Elem
  | .base b, t => .base (b.aliasSet t)
  | .ptr v _ x, t => .ptr v t x
  | .slice v _ i x, t => .slice v t i x
  | .arr v _ i s x, t => .arr v t i s x
  | .mp v _ k vi x, t => .mp v t k vi x
  | .strct v _ tu fs, t => .strct v t tu fs

/-- The `Ident` constructor of `gen/elem.go`: the base element for a named
identity, a primitive when recognized and an aliased `IDENT` otherwise. -/
def identBase (id : String) : BaseData :=
  match primitives id with
  | some p => { value := p }
  | none => BaseData.aliasSet { value := .ident } id

/-- ToBase of a base element: the shim's to-function when present, else the
base type name. -/
def BaseData.toBase (b : BaseData) : String :=
  if b.shimToBase ≠ "" then b.shimToBase else b.baseType

/-- FromBase of a base element: the shim's from-function when present, else
the element's type name. -/
def BaseData.fromBase (b : BaseData) : String :=
  if b.shimFromBase ≠ "" then b.shimFromBase else typeName (.base b)

/-- toBaseConvert of a base element: the conversion expression
ToBase(Varname). -/
def BaseData.toBaseConvert (b : BaseData) : String :=
  b.toBase ++ "(" ++ b.vname ++ ")"

mutual
/-- Deep copy (`Copy()` in `gen/elem.go`). On the pure tree representation
a deep copy rebuilds an equal tree; aliasing effects of the Go heap are not
observable here. -/
def Elem.copy : Elem → Elem
  | .base b => .base b
  | .ptr v a x => .ptr v a x.copy
  | .slice v a i x => .slice v a i x.copy
  | .arr v a i s x => .arr v a i s x.copy
  | .mp v a k vi x => .mp v a k vi x.copy
  | .strct v a t fs => .strct v a t (Fields.copy fs)
termination_by structural e => e

/-- Copy of a struct's field list. -/
def Fields.copy : Fields → Fields
  | .nil => .nil
  | .cons t r n e rest => .cons t r n e.copy (Fields.copy rest)
termination_by structural fs => fs
end

/-! ## Identifier generation

`gen/elem.go` keeps a process-wide `identNext` counter and `identPrefix`
string; `resetIdent` sets both and `randIdent` mints `prefix ++ %04d`.
The model threads them as explicit state and additionally logs every minted
name in a ghost `minted` field (the source does not log; the log is pure
observation used to state the claims about generated identifiers). -/

/-- The identifier-generation state: `identPrefix` (`pfx`), `identNext`
(`next`), and the ghost log of minted names. -/
structure IdState where
  pfx : String
  next : Nat
  minted : List String
  deriving Repr

/-- Zero-padding to four digits, as in the `%04d` of `randIdent`. -/
def pad4 (n : Nat) : String :=
  let s := toString n
  String.mk (List.replicate (4 - s.length) '0') ++ s

/-- randIdent of `gen/elem.go`: increment the counter and mint
`prefix ++ %04d(counter)`. -/
def randIdent (st : IdState) : String × IdState :=
  let n := st.next + 1
  let name := st.pfx ++ pad4 n
  (name, { st with next := n, minted := name :: st.minted })

/-- resetIdent of `gen/elem.go`. -/
def resetIdent (p : String) (st : IdState) : IdState :=
  { st with pfx := p, next := 0 }

/-- SetVarname on a `BaseElem` (`gen/elem.go`): extension or needs-ref
elements are referenced explicitly (strip a leading `*`, else prepend `&`);
all others store the expression as given. -/
def BaseData.setVname (b : BaseData) (a : String) : BaseData :=
  if b.value = .extension || b.needsref then
    if goHasPref a "*" then { b with vname := (String.mk a.data.tail) }
    else { b with vname := "&" ++ a }
  else { b with vname := a }

/-- The retry loop of `Array.SetVarname`: keep minting while the index is
empty or occurs textually in the parent expression. The Go loop is unbounded
but terminates because successive candidates are distinct strings of which
at most `|varname|` can occur in the fixed parent expression; the fuel
`varname.length + 2` therefore reproduces it exactly. -/
def mintArrayIdx (vn : String) (fuel : Nat) (idx : String) (st : IdState) :
    String × IdState :=
  if idx ≠ "" && !goContains vn idx then (idx, st)
  else
    match fuel with
    | 0 => (idx, st)
    | fuel' + 1 =>
        let (c, st') := randIdent st
        mintArrayIdx vn fuel' c st'

/-- The retry loop of `Map.SetVarname` for the value index: keep minting
while it is empty or collides with the key index. Two rounds always
suffice (consecutive mints are distinct). -/
def mintValIdx (k : String) (fuel : Nat) (v : String) (st : IdState) :
    String × IdState :=
  if v ≠ "" && v ≠ k then (v, st)
  else
    match fuel with
    | 0 => (v, st)
    | fuel' + 1 =>
        let (c, st') := randIdent st
        mintValIdx k fuel' c st'

mutual
/-- SetVarname (`gen/elem.go`): store the expression for this node and
recursively name the children, minting index/key/value identifiers with
`randIdent`. For a pointer the struct child and `IDENT` base child are
referenced bare and every other child as `*parent`; a slice parent whose
expression starts with `*` is parenthesized for indexing (the Go code
indexes byte 0 and would panic on an empty expression; callers always pass
a nonempty receiver). -/
def Elem.setVarname : Elem → String → IdState → Elem × IdState
  | .base b, a, st => (.base (b.setVname a), st)
  | .ptr _ al v, a, st =>
      let arg :=
        match v with
        | .strct _ _ _ _ => a
        | .base bb => if bb.value = .ident then a else "*" ++ a
        | _ => "*" ++ a
      let (v', st') := Elem.setVarname v arg st
      (.ptr a al v', st')
  | .slice _ al _ els, a, st =>
      let (idx, st₁) := randIdent st
      let vn := if goHasPref a "*" then "(" ++ a ++ ")" else a
      let (els', st₂) := Elem.setVarname els (vn ++ "[" ++ idx ++ "]") st₁
      (.slice a al idx els', st₂)
  | .arr _ al idx₀ sz els, a, st =>
      let (idx, st₁) := mintArrayIdx a (a.length + 2) idx₀ st
      let (els', st₂) := Elem.setVarname els (a ++ "[" ++ idx ++ "]") st₁
      (.arr a al idx sz els', st₂)
  | .mp _ al _ vi₀ v, a, st =>
      let (k, st₁) := randIdent st
      let (vi, st₂) := mintValIdx k 2 vi₀ st₁
      let (v', st₃) := Elem.setVarname v vi st₂
      (.mp a al k vi v', st₃)
  | .strct _ al tu fs, a, st =>
      let (fs', st') := Fields.setVarname fs a st
      (.strct a al tu fs', st')
termination_by structural e a st => e

/-- writeStructFields of `gen/elem.go`: each field is named
`parent.fieldName`. -/
def Fields.setVarname : Fields → String → IdState → Fields × IdState
  | .nil, _, st => (.nil, st)
  | .cons t r n e rest, a, st =>
      let (e', st') := Elem.setVarname e (a ++ "." ++ n) st
      let (rest', st'') := Fields.setVarname rest a st'
      (.cons t r n e' rest', st'')
termination_by structural fs a st => fs
end

/-! ## Shim substitution (`gen/inline.go`) -/

mutual
/-- nextShim of `gen/inline.go`: if the node's canonical type name equals
the shim target, replace it with a deep copy of the shim base carrying the
replaced node's expression (via `SetVarname`); otherwise recurse into the
children (a bare base that does not match is left alone). -/
def nextShim (e : Elem) (id : String) (be : BaseData) : Elem :=
  if typeName e = id then
    .base (be.setVname e.varname)
  else
    match e with
    | .base b => .base b
    | .ptr v a x => .ptr v a (nextShim x id be)
    | .slice v a i x => .slice v a i (nextShim x id be)
    | .arr v a i s x => .arr v a i s (nextShim x id be)
    | .mp v a k vi x => .mp v a k vi (nextShim x id be)
    | .strct v a t fs => .strct v a t (nextShimFields fs id be)
termination_by structural e

/-- The struct-field loop of `findShim`/`nextShim`. -/
def nextShimFields (fs : Fields) (id : String) (be : BaseData) : Fields :=
  match fs with
  | .nil => .nil
  | .cons t r n e rest =>
      .cons t r n (nextShim e id be) (nextShimFields rest id be)
termination_by structural fs
end

mutual
/-- Modelled from the spec: "wherever any node whose canonical type-name
equals the shim's target appears as the child of another node, that child is
replaced with a deep copy of the shim Base (preserving the child's current
varname)". This is the substitution the specification describes, used as
the comparison point for `nextShim`. -/
def specShimSubst (e : Elem) (id : String) (be : BaseData) : Elem :=
  if typeName e = id then
    .base { be with vname := e.varname }
  else
    match e with
    | .base b => .base b
    | .ptr v a x => .ptr v a (specShimSubst x id be)
    | .slice v a i x => .slice v a i (specShimSubst x id be)
    | .arr v a i s x => .arr v a i s (specShimSubst x id be)
    | .mp v a k vi x => .mp v a k vi (specShimSubst x id be)
    | .strct v a t fs => .strct v a t (specShimSubstFields fs id be)
termination_by structural e

/-- Field-list companion of `specShimSubst`. -/
def specShimSubstFields (fs : Fields) (id : String) (be : BaseData) : Fields :=
  match fs with
  | .nil => .nil
  | .cons t r n e rest =>
      .cons t r n (specShimSubst e id be) (specShimSubstFields rest id be)
termination_by structural fs
end

/-! ## MessagePack byte appenders (`msgp/write_bytes.go`)

The single-byte fix-format constructors and the format prefix constants live
in the library's `const.go`, which is not among the provided sources; they
are modelled from the spec's description of fixed-width MessagePack headers
(the standard MessagePack values). Bytes are `Nat` below 256. -/

/-- Modelled from the spec: the fixmap lead byte `0x80 | size` (const.go is
not among the sources; this is the standard MessagePack value). -/
def wfixmap (u : Nat) : Nat := 128 + u % 16

/-- Modelled from the spec: the fixarray lead byte `0x90 | size`. -/
def wfixarray (u : Nat) : Nat := 144 + u % 16

/-- Modelled from the spec: the fixstr lead byte `0xa0 | size`. -/
def wfixstr (u : Nat) : Nat := 160 + u % 32

/-- Modelled from the spec: map16/map32/array16/array32/str8/str16/str32
lead bytes of the MessagePack format (missing const.go). -/
def mmap16 : Nat := 0xde
def mmap32 : Nat := 0xdf
def marray16 : Nat := 0xdc
def marray32 : Nat := 0xdd
def mstr8 : Nat := 0xd9
def mstr16 : Nat := 0xda
def mstr32 : Nat := 0xdb

/-- prefixu16 of `msgp/integers.go`: a prefix byte then a big-endian 16-bit
size, as the bytes it appends. -/
def prefixu16L (pre sz : Nat) : List Nat := [pre, sz / 256 % 256, sz % 256]

/-- prefixu32 of `msgp/integers.go`: a prefix byte then a big-endian 32-bit
size, as the bytes it appends. -/
def prefixu32L (pre sz : Nat) : List Nat :=
  [pre, sz / 16777216 % 256, sz / 65536 % 256, sz / 256 % 256, sz % 256]

/-- AppendMapHeader of `msgp/write_bytes.go`. -/
def appendMapHeader (b : List Nat) (size : Nat) : List Nat :=
  if size ≤ 15 then b ++ [wfixmap size]
  else if size ≤ 65535 then b ++ prefixu16L mmap16 size
  else b ++ prefixu32L mmap32 size

/-- AppendArrayHeader of `msgp/write_bytes.go`. -/
def appendArrayHeader (b : List Nat) (size : Nat) : List Nat :=
  if size ≤ 15 then b ++ [wfixarray size]
  else if size ≤ 65535 then b ++ prefixu16L marray16 size
  else b ++ prefixu32L marray32 size

/-- The bytes of an ASCII string (Go ranges over the string's bytes; the
emitted field tags are ASCII). -/
def strBytes (s : String) : List Nat := s.data.map Char.toNat

/-- AppendString of `msgp/write_bytes.go`: a str-format header followed by
the string's bytes. -/
def appendString (b : List Nat) (s : String) : List Nat :=
  let sz := s.length
  if sz ≤ 31 then b ++ [wfixstr sz] ++ strBytes s
  else if sz ≤ 255 then b ++ [mstr8, sz % 256] ++ strBytes s
  else if sz ≤ 65535 then b ++ prefixu16L mstr16 sz ++ strBytes s
  else b ++ prefixu32L mstr32 sz ++ strBytes s

/-! ## The emission engine

The printer (`gen/spec.go`) plus the per-pass generator state: the
identifier state, the output text, the ordered list of `var` declarations
written by `printer.declare` (the locally declared identifiers that the
repository's own `ident_names` test extracts), the `hasField` flag of the
decode and unmarshal passes and the `fuse` buffer of the encode pass.
Output-sink I/O errors are external; in the pure model writes always
succeed, so the `p.ok()` guards of the source are always taken. -/

structure EmitState where
  ids : IdState
  out : String
  decls : List (String × String)
  hasField : Bool
  fuse : List Nat
  deriving Repr

/-- The errCheck constant of `gen/spec.go`. -/
def errCheck : String := "\nif err != nil \x7b return \x7d"

/-- printer.print / printf with the format already applied. -/
def pr (s : String) (st : EmitState) : EmitState := { st with out := st.out ++ s }

/-- printer.declare: writes `var name typ` and (model-side) records the
declared name. -/
def declareVar (name typ : String) (st : EmitState) : EmitState :=
  { st with
    out := st.out ++ "\nvar " ++ name ++ " " ++ typ
    decls := st.decls ++ [(name, typ)] }

/-- printer.closeBlock. -/
def closeBlock (st : EmitState) : EmitState := pr "\n\x7d" st

/-- printer.nakedReturn. -/
def nakedReturn (st : EmitState) : EmitState := pr "\nreturn\n\x7d\n" st

/-- printer.comment. -/
def comment (s : String) (st : EmitState) : EmitState := pr ("\n// " ++ s) st

/-- printer.clearMap. -/
def clearMap (name : String) (st : EmitState) : EmitState :=
  pr ("\nfor key := range " ++ name ++ " \x7b delete(" ++ name ++ ", key) \x7d") st

/-- printer.resizeMap: allocate the map when nil, else delete all keys. -/
def resizeMap (size vn tn : String) (st : EmitState) : EmitState :=
  st |> pr ("\nif " ++ vn ++ " == nil && " ++ size ++ " > 0 \x7b")
     |> pr ("\n" ++ vn ++ " = make(" ++ tn ++ ", " ++ size ++ ")")
     |> pr ("\n\x7d else if len(" ++ vn ++ ") > 0 \x7b")
     |> clearMap vn
     |> closeBlock

/-- printer.resizeSlice. -/
def resizeSlice (size vn tn : String) (st : EmitState) : EmitState :=
  pr ("\nif cap(" ++ vn ++ ") >= int(" ++ size ++ ") \x7b " ++ vn ++ " = ("
    ++ vn ++ ")[:" ++ size ++ "] \x7d else \x7b " ++ vn ++ " = make(" ++ tn
    ++ ", " ++ size ++ ") \x7d") st

/-- printer.arrayCheck. -/
def arrayCheck (want got : String) (st : EmitState) : EmitState :=
  pr ("\nif " ++ got ++ " != " ++ want ++ " \x7b err = msgp.ArrayError\x7bWanted: "
    ++ want ++ ", Got: " ++ got ++ "\x7d; return \x7d") st

/-- coerceArraySize of `gen/elem.go`. -/
def coerceArraySize (asz : String) : String := "uint32(" ++ asz ++ ")"

/-- NeedsInit of a pointer (`gen/elem.go`): false only when the pointee is a
needs-ref base. -/
def ptrNeedsInit : Elem → Bool
  | .base b => !b.needsref
  | _ => true

/-- printer.initPtr. -/
def initPtr (vn ptrVal : String) (needsInit : Bool) (st : EmitState) : EmitState :=
  if needsInit then
    pr ("\nif " ++ vn ++ " == nil \x7b\n" ++ vn ++ " = new(" ++ ptrVal ++ ")\n\x7d") st
  else st

/-- Is the element a struct or array (receiver de-referenced automatically)?
Used by methodReceiver and unsetReceiver of `gen/spec.go`. -/
def isStructOrArray : Elem → Bool
  | .strct _ _ _ _ => true
  | .arr _ _ _ _ _ => true
  | _ => false

/-- methodReceiver of `gen/spec.go`: structs and arrays keep their varname;
everything else has its varname rewritten to `(*varname)` (which re-runs
SetVarname and can mint identifiers), and the receiver type is the
indirected type name. -/
def methodReceiver (p : Elem) (ids : IdState) : String × Elem × IdState :=
  if isStructOrArray p then ("*" ++ typeName p, p, ids)
  else
    let (p', ids') := Elem.setVarname p ("(*" ++ p.varname ++ ")") ids
    ("*" ++ typeName p, p', ids')

/-- unsetReceiver of `gen/spec.go`: reset the varname to `z` for elements
other than structs and arrays. -/
def unsetReceiver (p : Elem) (ids : IdState) : Elem × IdState :=
  if isStructOrArray p then (p, ids)
  else Elem.setVarname p "z" ids

/-- Does a struct field block the by-value receiver heuristic? A field does
unless it is a base element whose kind is neither `IDENT` nor `Bytes`
(`imutMethodReceiver` in `gen/spec.go`). -/
def fieldBlocksValueReceiver : Elem → Bool
  | .base b => b.value = .ident || b.value = .bytes
  | _ => true

def fieldsBlockValueReceiver : Fields → Bool
  | .nil => false
  | .cons _ _ _ e rest => fieldBlocksValueReceiver e || fieldsBlockValueReceiver rest

/-- imutMethodReceiver of `gen/spec.go`: small structs of at most three
plain fixed-base fields are received by value; arrays by reference; all
other elements by value. -/
def fieldsCount : Fields → Nat
  | .nil => 0
  | .cons _ _ _ _ rest => 1 + fieldsCount rest

def imutMethodReceiver (p : Elem) : String :=
  match p with
  | .strct _ _ _ fs =>
      if fieldsCount fs ≤ 3 && !fieldsBlockValueReceiver fs then typeName p
      else "*" ++ typeName p
  | .arr _ _ _ _ _ => "*" ++ typeName p
  | _ => typeName p

/-- isPrintable of `gen/spec.go`. -/
def isPrintableE : Elem → Bool
  | .base b => b.printable
  | _ => true

/-- Is the element a base of kind byte or uint8 (the byte-array shortcut
test of the decode and encode passes)? -/
def isByteOrUint8Base : Elem → Bool
  | .base b => b.value = .byte || b.value = .uint8
  | _ => false

/-- Is the element a base of kind byte (the byte-array shortcut test of the
unmarshal pass, which checks only `Byte`)? -/
def isByteBase : Elem → Bool
  | .base b => b.value = .byte
  | _ => false

/-! ### The Decode pass (`gen/decode.go`) -/

/-- decodeGen.assignAndCheck. -/
def decAssignAndCheck (name typ : String) (st : EmitState) : EmitState :=
  st |> pr ("\n" ++ name ++ ", err = dc.Read" ++ typ ++ "()") |> pr errCheck

mutual
/-- The `next(d, e)` dispatch of the decode pass: the per-variant emission
of `gen/decode.go`. -/
def decNext : Elem → EmitState → EmitState
  | .strct _ _ asTuple fs, st =>
      if asTuple then
        -- decodeGen.structAsTuple
        let (sz, ids') := randIdent st.ids
        let st := { st with ids := ids' }
        let st := declareVar sz "uint32" st
        let st := decAssignAndCheck sz "ArrayHeader" st
        let st := arrayCheck (toString (fieldsCount fs)) sz st
        decFieldsLoop fs st
      else
        -- decodeGen.structAsMap
        let st :=
          if !st.hasField then { declareVar "field" "[]byte" st with hasField := true }
          else st
        let (sz, ids') := randIdent st.ids
        let st := { st with ids := ids' }
        let st := declareVar sz "uint32" st
        let st := decAssignAndCheck sz "MapHeader" st
        let st := pr ("\nfor " ++ sz ++ " > 0 \x7b") st
        let st := pr ("\n" ++ sz ++ "--") st
        let st := decAssignAndCheck "field" "MapKeyPtr" st
        let st := pr "\nswitch string(field) \x7b" st
        let st := decSwitchCases fs st
        let st := pr "\ndefault:\nerr = dc.Skip()" st
        let st := pr errCheck st
        closeBlock (closeBlock st)
  | .base b, st =>
      let (tmp, st) :=
        if b.convert then
          let st := pr "\n\x7b" st
          let (t, ids') := randIdent st.ids
          (t, declareVar t b.baseType { st with ids := ids' })
        else ("", st)
      let vname := b.vname
      let bname := b.baseName
      let st :=
        match b.value with
        | .bytes =>
            if b.convert then
              pr ("\n" ++ tmp ++ ", err = dc.ReadBytes([]byte(" ++ vname ++ "))") st
            else
              pr ("\n" ++ vname ++ ", err = dc.ReadBytes(" ++ vname ++ ")") st
        | .ident => pr ("\nerr = " ++ vname ++ ".DecodeMsg(dc)") st
        | .extension => pr ("\nerr = dc.ReadExtension(" ++ vname ++ ")") st
        | _ =>
            if b.convert then
              pr ("\n" ++ tmp ++ ", err = dc.Read" ++ bname ++ "()") st
            else
              pr ("\n" ++ vname ++ ", err = dc.Read" ++ bname ++ "()") st
      let st := pr errCheck st
      if b.convert then
        if b.shimMode = .cast then
          pr ("\n" ++ vname ++ " = " ++ b.fromBase ++ "(" ++ tmp ++ ")\n\x7d") st
        else
          st |> pr ("\n" ++ vname ++ ", err = " ++ b.fromBase ++ "(" ++ tmp ++ ")\n\x7d")
             |> pr errCheck
      else st
  | .mp vn al keyIndx valIndx value, st =>
      let (sz, ids') := randIdent st.ids
      let st := { st with ids := ids' }
      let st := declareVar sz "uint32" st
      let st := decAssignAndCheck sz "MapHeader" st
      let st := resizeMap sz vn (typeName (.mp vn al keyIndx valIndx value)) st
      let st := pr ("\nfor " ++ sz ++ " > 0 \x7b\n" ++ sz ++ "--") st
      let st := declareVar keyIndx "string" st
      let st := declareVar valIndx (typeName value) st
      let st := decAssignAndCheck keyIndx "String" st
      let st := decNext value st
      let st := pr ("\n" ++ vn ++ "[" ++ keyIndx ++ "] = " ++ valIndx) st
      closeBlock st
  | .slice vn al index els, st =>
      let (sz, ids') := randIdent st.ids
      let st := { st with ids := ids' }
      let st := declareVar sz "uint32" st
      let st := decAssignAndCheck sz "ArrayHeader" st
      let st := resizeSlice sz vn (typeName (.slice vn al index els)) st
      let st := pr ("\n for " ++ index ++ " := range " ++ vn ++ " \x7b") st
      let st := decNext els st
      closeBlock st
  | .arr vn _ index size els, st =>
      if isByteOrUint8Base els then
        st |> pr ("\nerr = dc.ReadExactBytes((" ++ vn ++ ")[:])")
           |> pr errCheck
      else
        let (sz, ids') := randIdent st.ids
        let st := { st with ids := ids' }
        let st := declareVar sz "uint32" st
        let st := decAssignAndCheck sz "ArrayHeader" st
        let st := arrayCheck (coerceArraySize size) sz st
        let st := pr ("\n for " ++ index ++ " := range " ++ vn ++ " \x7b") st
        let st := decNext els st
        closeBlock st
  | .ptr vn _ value, st =>
      let st := pr "\nif dc.IsNil() \x7b" st
      let st := pr "\nerr = dc.ReadNil()" st
      let st := pr errCheck st
      let st := pr ("\n" ++ vn ++ " = nil\n\x7d else \x7b") st
      let st := initPtr vn (typeName value) (ptrNeedsInit value) st
      let st := decNext value st
      closeBlock st
termination_by structural e st => e

/-- The plain field loop of `structAsTuple`. -/
def decFieldsLoop : Fields → EmitState → EmitState
  | .nil, st => st
  | .cons _ _ _ e rest, st => decFieldsLoop rest (decNext e st)
termination_by structural fs st => fs

/-- The per-field `case` arms of `structAsMap`. -/
def decSwitchCases : Fields → EmitState → EmitState
  | .nil, st => st
  | .cons tag _ _ e rest, st =>
      let st := pr ("\ncase \"" ++ tag ++ "\":") st
      decSwitchCases rest (decNext e st)
termination_by structural fs st => fs
end

/-- decodeGen.Execute: declarations of the method header, the receiver
handling (`methodReceiver` is evaluated after `p.Varname()`, matching Go's
left-to-right argument evaluation), the traversal and the trailing return.
The `hasField` flag is reset per execution. -/
def decExecute (p : Elem) (st : EmitState) : Elem × EmitState :=
  let st := { st with hasField := false }
  if isPrintableE p then
    let st := comment "DecodeMsg implements msgp.Decoder" st
    let vn := p.varname
    let (recv, p', ids') := methodReceiver p st.ids
    let st := { st with ids := ids' }
    let st := pr ("\nfunc (" ++ vn ++ " " ++ recv
      ++ ") DecodeMsg(dc *msgp.Reader) (err error) \x7b") st
    let st := decNext p' st
    let st := nakedReturn st
    let (p'', ids'') := unsetReceiver p' st.ids
    (p'', { st with ids := ids'' })
  else (p, st)

/-! ### The Unmarshal pass (`gen/unmarshal.go`) -/

/-- unmarshalGen.assignAndCheck. -/
def unmAssignAndCheck (name base : String) (st : EmitState) : EmitState :=
  st |> pr ("\n" ++ name ++ ", bts, err = msgp.Read" ++ base ++ "Bytes(bts)")
     |> pr errCheck

mutual
/-- The `next(u, e)` dispatch of the unmarshal pass (`gen/unmarshal.go`). -/
def unmNext : Elem → EmitState → EmitState
  | .strct _ _ asTuple fs, st =>
      if asTuple then
        -- unmarshalGen.tuple
        let (sz, ids') := randIdent st.ids
        let st := { st with ids := ids' }
        let st := declareVar sz "uint32" st
        let st := unmAssignAndCheck sz "ArrayHeader" st
        let st := arrayCheck (toString (fieldsCount fs)) sz st
        unmFieldsLoop fs st
      else
        -- unmarshalGen.structAsMap
        let st :=
          if !st.hasField then { declareVar "field" "[]byte" st with hasField := true }
          else st
        let (sz, ids') := randIdent st.ids
        let st := { st with ids := ids' }
        let st := declareVar sz "uint32" st
        let st := unmAssignAndCheck sz "MapHeader" st
        let st := pr ("\nfor " ++ sz ++ " > 0 \x7b") st
        let st := pr ("\n" ++ sz ++ "--") st
        let st := pr "\nfield, bts, err = msgp.ReadMapKeyZC(bts)" st
        let st := pr errCheck st
        let st := pr "\nswitch string(field) \x7b" st
        let st := unmSwitchCases fs st
        let st := pr "\ndefault:\nbts, err = msgp.Skip(bts)" st
        let st := pr errCheck st
        closeBlock (closeBlock st)
  | .base b, st =>
      let refname₀ := b.vname
      let lowered₀ := b.vname
      let (refname, lowered, st) :=
        if b.convert then
          let lowered := b.toBase ++ "(" ++ lowered₀ ++ ")"
          let st := pr "\n\x7b" st
          let (t, ids') := randIdent st.ids
          let st := declareVar t b.baseType { st with ids := ids' }
          (t, lowered, st)
        else (refname₀, lowered₀, st)
      let st :=
        match b.value with
        | .bytes =>
            pr ("\n" ++ refname ++ ", bts, err = msgp.ReadBytesBytes(bts, "
              ++ lowered ++ ")") st
        | .extension =>
            pr ("\nbts, err = msgp.ReadExtensionBytes(bts, " ++ lowered ++ ")") st
        | .ident =>
            pr ("\nbts, err = " ++ lowered ++ ".UnmarshalMsg(bts)") st
        | _ =>
            pr ("\n" ++ refname ++ ", bts, err = msgp.Read" ++ b.baseName
              ++ "Bytes(bts)") st
      let st := pr errCheck st
      if b.convert then
        let st :=
          if b.shimMode = .cast then
            pr ("\n" ++ b.vname ++ " = " ++ b.fromBase ++ "(" ++ refname ++ ")\n") st
          else
            st |> pr ("\n" ++ b.vname ++ ", err = " ++ b.fromBase ++ "("
                  ++ refname ++ ")")
               |> pr errCheck
        pr "\x7d" st
      else st
  | .arr vn _ index size els, st =>
      if isByteBase els then
        st |> pr ("\nbts, err = msgp.ReadExactBytes(bts, (" ++ vn ++ ")[:])")
           |> pr errCheck
      else
        let (sz, ids') := randIdent st.ids
        let st := { st with ids := ids' }
        let st := declareVar sz "uint32" st
        let st := unmAssignAndCheck sz "ArrayHeader" st
        let st := arrayCheck (coerceArraySize size) sz st
        let st := pr ("\n for " ++ index ++ " := range " ++ vn ++ " \x7b") st
        let st := unmNext els st
        closeBlock st
  | .slice vn al index els, st =>
      let (sz, ids') := randIdent st.ids
      let st := { st with ids := ids' }
      let st := declareVar sz "uint32" st
      let st := unmAssignAndCheck sz "ArrayHeader" st
      let st := resizeSlice sz vn (typeName (.slice vn al index els)) st
      let st := pr ("\n for " ++ index ++ " := range " ++ vn ++ " \x7b") st
      let st := unmNext els st
      closeBlock st
  | .mp vn al keyIndx valIndx value, st =>
      let (sz, ids') := randIdent st.ids
      let st := { st with ids := ids' }
      let st := declareVar sz "uint32" st
      let st := unmAssignAndCheck sz "MapHeader" st
      let st := resizeMap sz vn (typeName (.mp vn al keyIndx valIndx value)) st
      let st := pr ("\nfor " ++ sz ++ " > 0 \x7b") st
      let st := declareVar keyIndx "string" st
      let st := declareVar valIndx (typeName value) st
      let st := pr ("\n" ++ sz ++ "--") st
      let st := unmAssignAndCheck keyIndx "String" st
      let st := unmNext value st
      let st := pr ("\n" ++ vn ++ "[" ++ keyIndx ++ "] = " ++ valIndx) st
      closeBlock st
  | .ptr vn _ value, st =>
      let st := pr ("\nif msgp.IsNil(bts) \x7b bts, err = msgp.ReadNilBytes(bts); if err != nil \x7b return \x7d; "
        ++ vn ++ " = nil; \x7d else \x7b ") st
      let st := initPtr vn (typeName value) (ptrNeedsInit value) st
      let st := unmNext value st
      closeBlock st
termination_by structural e st => e

/-- The field loop of `unmarshalGen.tuple`. -/
def unmFieldsLoop : Fields → EmitState → EmitState
  | .nil, st => st
  | .cons _ _ _ e rest, st => unmFieldsLoop rest (unmNext e st)
termination_by structural fs st => fs

/-- The per-field `case` arms of `unmarshalGen.structAsMap`. -/
def unmSwitchCases : Fields → EmitState → EmitState
  | .nil, st => st
  | .cons tag _ _ e rest, st =>
      let st := pr ("\ncase \"" ++ tag ++ "\":") st
      unmSwitchCases rest (unmNext e st)
termination_by structural fs st => fs
end

/-- unmarshalGen.Execute. -/
def unmExecute (p : Elem) (st : EmitState) : Elem × EmitState :=
  let st := { st with hasField := false }
  if isPrintableE p then
    let st := comment "UnmarshalMsg implements msgp.Unmarshaler" st
    let vn := p.varname
    let (recv, p', ids') := methodReceiver p st.ids
    let st := { st with ids := ids' }
    let st := pr ("\nfunc (" ++ vn ++ " " ++ recv
      ++ ") UnmarshalMsg(bts []byte) (o []byte, err error) \x7b") st
    let st := unmNext p' st
    let st := pr "\no = bts" st
    let st := nakedReturn st
    let (p'', ids'') := unsetReceiver p' st.ids
    (p'', { st with ids := ids'' })
  else (p, st)

/-! ### The Encode pass (`gen/encode.go`) -/

/-- Lowercase hex digits of a byte, as Go's `%x` (no padding). -/
def hexDigit (n : Nat) : Char :=
  if n < 10 then Char.ofNat (48 + n) else Char.ofNat (87 + n)

def hexStr (n : Nat) : String :=
  if n < 16 then String.mk [hexDigit n]
  else String.mk [hexDigit (n / 16 % 16), hexDigit (n % 16)]

/-- encodeGen.appendRaw: one bulk `en.Append` of the fused constant bytes,
each formatted `0x%x`. -/
def appendRawStr : List Nat → String
  | [] => ""
  | [b] => "0x" ++ hexStr b
  | b :: rest => "0x" ++ hexStr b ++ ", " ++ appendRawStr rest

def appendRaw (bts : List Nat) (st : EmitState) : EmitState :=
  pr ("\nerr = en.Append(" ++ appendRawStr bts
    ++ ")\nif err != nil \x7b return \x7d") st

/-- encodeGen.fuseHook: flush the fuse buffer as one bulk append. -/
def fuseHook (st : EmitState) : EmitState :=
  if st.fuse ≠ [] then { appendRaw st.fuse st with fuse := [] } else st

/-- encodeGen.Fuse: buffer constant bytes. -/
def fuseAdd (b : List Nat) (st : EmitState) : EmitState :=
  { st with fuse := st.fuse ++ b }

/-- encodeGen.writeAndCheck with the format already applied. -/
def encWriteAndCheck (typ arg : String) (st : EmitState) : EmitState :=
  st |> pr ("\nerr = en.Write" ++ typ ++ "(" ++ arg ++ ")") |> pr errCheck

/-- Go's %q on a field tag (the emitted tags contain no characters needing
escapes). -/
def goQuote (s : String) : String := "\"" ++ s ++ "\""

mutual
/-- The `next(e, elem)` dispatch of the encode pass (`gen/encode.go`). -/
def encNext : Elem → EmitState → EmitState
  | .strct _ _ asTuple fs, st =>
      if asTuple then
        -- encodeGen.structAsTuple
        let n := fieldsCount fs
        let st := pr ("\n// array header, size " ++ toString n) st
        let st := fuseAdd (appendArrayHeader [] n) st
        let st := if fieldsCount fs = 0 then fuseHook st else st
        encTupleFields fs st
      else
        -- encodeGen.structAsMap
        let n := fieldsCount fs
        let st := pr ("\n// map header, size " ++ toString n) st
        let st := fuseAdd (appendMapHeader [] n) st
        let st := if fieldsCount fs = 0 then fuseHook st else st
        encMapFields fs st
  | .base b, st =>
      let st := fuseHook st
      let (vname, st) :=
        if b.convert then
          if b.shimMode = .cast then (b.toBaseConvert, st)
          else
            let (t, ids') := randIdent st.ids
            let st := declareVar t b.baseType { st with ids := ids' }
            let st := pr ("\n" ++ t ++ ", err = " ++ b.toBaseConvert) st
            let st := pr errCheck st
            (t, st)
        else (b.vname, st)
      if b.value = .ident then
        st |> pr ("\nerr = " ++ vname ++ ".EncodeMsg(en)") |> pr errCheck
      else
        encWriteAndCheck b.baseName vname st
  | .mp vn _ keyIndx valIndx value, st =>
      let st := fuseHook st
      let st := encWriteAndCheck "MapHeader" ("uint32(len(" ++ vn ++ "))") st
      let st := pr ("\nfor " ++ keyIndx ++ ", " ++ valIndx ++ " := range "
        ++ vn ++ " \x7b") st
      let st := encWriteAndCheck "String" keyIndx st
      let st := encNext value st
      closeBlock st
  | .ptr vn _ value, st =>
      let st := fuseHook st
      let st := pr ("\nif " ++ vn
        ++ " == nil \x7b err = en.WriteNil(); if err != nil \x7b return; \x7d \x7d else \x7b") st
      let st := encNext value st
      closeBlock st
  | .slice vn _ index els, st =>
      let st := fuseHook st
      let st := encWriteAndCheck "ArrayHeader" ("uint32(len(" ++ vn ++ "))") st
      let st := pr ("\n for " ++ index ++ " := range " ++ vn ++ " \x7b") st
      let st := encNext els st
      closeBlock st
  | .arr vn _ index size els, st =>
      let st := fuseHook st
      if isByteOrUint8Base els then
        st |> pr ("\nerr = en.WriteBytes((" ++ vn ++ ")[:])") |> pr errCheck
      else
        let st := encWriteAndCheck "ArrayHeader" (coerceArraySize size) st
        let st := pr ("\n for " ++ index ++ " := range " ++ vn ++ " \x7b") st
        let st := encNext els st
        closeBlock st
termination_by structural e st => e

/-- The field loop of `encodeGen.structAsTuple`. -/
def encTupleFields : Fields → EmitState → EmitState
  | .nil, st => st
  | .cons _ _ _ e rest, st => encTupleFields rest (encNext e st)
termination_by structural fs st => fs

/-- The field loop of `encodeGen.structAsMap`. -/
def encMapFields : Fields → EmitState → EmitState
  | .nil, st => st
  | .cons tag _ _ e rest, st =>
      let st := pr ("\n// write " ++ goQuote tag) st
      let st := fuseAdd (appendString [] tag) st
      encMapFields rest (encNext e st)
termination_by structural fs st => fs
end

/-- encodeGen.Execute. -/
def encExecute (p : Elem) (st : EmitState) : EmitState :=
  if isPrintableE p then
    let st := comment "EncodeMsg implements msgp.Encoder" st
    let st := pr ("\nfunc (" ++ p.varname ++ " " ++ imutMethodReceiver p
      ++ ") EncodeMsg(en *msgp.Writer) (err error) \x7b") st
    let st := encNext p st
    nakedReturn st
  else st

/-- A fresh emission state whose identifier generator is in the state
`generatorSet.Print` establishes before every pass: `resetIdent("zb")`. -/
def printPassState : EmitState :=
  { ids := { pfx := "zb", next := 0, minted := [] }
    out := ""
    decls := []
    hasField := false
    fuse := [] }

/-! ## Pattern matching on type names (`typeNameMatches`, `gen/spec.go`)

Go's `regexp.MustCompile` panics when the expression does not compile. The
regexp engine is the Go standard library, outside this repository, so it is
supplied as a parameter `rx : String → Option (String → Bool)` — `none`
models a compile failure (a panic in `MustCompile`), `some f` a compiled
matcher. Panics are the `Except Unit` error; `.error ()` aborts the run. -/

/-- Byte-index string operations; the patterns and type names involved are
ASCII, where Go's byte indexing coincides with character indexing. -/
def strTake (s : String) (n : Nat) : String := String.mk (s.data.take n)

def strDrop (s : String) (n : Nat) : String := String.mk (s.data.drop n)

def charAt (s : String) (i : Nat) : Char := s.data.getD i ' '

/-- typeNameMatches of `gen/spec.go`: patterns longer than four bytes that
start with `reg` are regex patterns — negated on `reg!` (expression from
byte 5), plain otherwise (expression from byte 4) — and any compile failure
panics (`MustCompile`); all other patterns compare by equality. -/
def typeNameMatchesE (rx : String → Option (String → Bool))
    (pattern typeName : String) : Except Unit Bool :=
  if pattern.length > 4 && strTake pattern 3 == "reg" then
    if charAt pattern 3 = '!' then
      match rx (strDrop pattern 5) with
      | none => .error ()
      | some f => if !(f typeName) then .ok true else .ok false
    else
      match rx (strDrop pattern 4) with
      | none => .error ()
      | some f => if f typeName then .ok true else .ok false
  else .ok (pattern == typeName)

/-- Is the character one of the regexp metacharacters? -/
def isRegexMeta (c : Char) : Bool :=
  c = '(' || c = ')' || c = '[' || c = ']' || c = '*' || c = '+' || c = '?'
    || c = '\\' || c = '|' || c = '^' || c = '$' || c = '.'

/-- Modelled from the spec: Go's `regexp.Compile` restricted to
metacharacter-free patterns (the regexp engine is the Go standard library,
not part of this repository). A metacharacter-free pattern compiles and its
unanchored match is substring containment — as Go's engine does on such
patterns; patterns containing a metacharacter are treated as failing to
compile, which agrees with Go on the pattern used in the theorems below
(`"("` is rejected by Go's parser with "missing closing )"). -/
def litRegexp (expr : String) : Option (String → Bool) :=
  if expr.data.any isRegexMeta then none
  else some (fun s => goContains s expr)

/-! ## The directive applier (`gen/source.go`, directives section) -/

/-- The in-memory source of `gen/source.go`, restricted to the parts the
directive applier and resolver touch. The identities map is an association
list in insertion order (Go map iteration order is unspecified). -/
structure Source where
  pkg : String
  identities : List (String × Elem)
  directives : List String
  deriving Repr, DecidableEq

/-- Association-list lookup (content of a Go map access). -/
def lookupA {α : Type} : List (String × α) → String → Option α
  | [], _ => none
  | (k', v) :: rest, k => if k' = k then some v else lookupA rest k

/-- Association-list insert-or-update (content of a Go map assignment). -/
def insertA {α : Type} : List (String × α) → String → α → List (String × α)
  | [], k, v => [(k, v)]
  | (k', v') :: rest, k, v =>
      if k' = k then (k, v) :: rest else (k', v') :: insertA rest k v

/-- Splitting a character list on a separator character, the content of
Go's strings.Split with a one-character separator. -/
def splitOnChar (c : Char) : List Char → List (List Char)
  | [] => [[]]
  | x :: xs =>
      let r := splitOnChar c xs
      if x = c then [] :: r
      else
        match r with
        | [] => [[x]]
        | h :: t => (x :: h) :: t

/-- Go's strings.Split on a single-character separator. -/
def goSplit (s : String) (c : Char) : List String :=
  (splitOnChar c s.data).map String.mk

/-- The ASCII whitespace of strings.TrimSpace (the directive arguments are
ASCII). -/
def isGoSpace (c : Char) : Bool :=
  c = ' ' || c = '\t' || c = '\n' || c = '\r'

/-- strings.TrimSpace. -/
def goTrimSpace (s : String) : String :=
  String.mk (((s.data.dropWhile isGoSpace).reverse.dropWhile isGoSpace).reverse)

/-- strings.TrimPrefix. -/
def goTrimPref (s p : String) : String :=
  if goHasPref s p then strDrop s p.length else s

/-- findShim of `gen/inline.go`: substitute the shim into the children of
every identity, then install the shim base as the identity for the target
name itself. -/
def findShim (s : Source) (id : String) (be : BaseData) : Source :=
  let step : Elem → Elem := fun el =>
    match el with
    | .strct v a t fs => .strct v a t (nextShimFields fs id be)
    | .arr v a i sz x => .arr v a i sz (nextShim x id be)
    | .slice v a i x => .slice v a i (nextShim x id be)
    | .mp v a k vi x => .mp v a k vi (nextShim x id be)
    | .ptr v a x => .ptr v a (nextShim x id be)
    | .base b => .base b
  { s with
    identities :=
      insertA (s.identities.map (fun p => (p.1, step p.2))) id (.base be) }

/-- applyShim of `gen/source.go`: parse
`shim T as:B using:to/from mode:m`, defaulting to cast mode; malformed
argument lists are handler errors (warned and skipped by the caller). -/
def applyShim (text : List String) (s : Source) :
    Except Unit (Except String Source) :=
  if text.length < 4 || text.length > 5 then
    .ok (.error "shim directive should have 3 or 4 arguments")
  else
    let name₀ := text.getD 1 ""
    let be₀ : BaseData := identBase (goTrimPref (goTrimSpace (text.getD 2 "")) "as:")
    let (name, be₁) :=
      if goHasPref name₀ "*" then (strDrop name₀ 1, { be₀ with needsref := true })
      else (name₀, be₀)
    let be₂ := be₁.aliasSet name
    let usestr := goTrimPref (goTrimSpace (text.getD 3 "")) "using:"
    let methods := goSplit usestr '/'
    if methods.length ≠ 2 then
      .ok (.error "expected 2 using methods")
    else
      let be₃ := { be₂ with
        shimToBase := methods.getD 0 ""
        shimFromBase := methods.getD 1 "" }
      if text.length = 5 then
        let modestr := goTrimPref (goTrimSpace (text.getD 4 "")) "mode:"
        if modestr = "cast" then
          .ok (.ok (findShim s name { be₃ with shimMode := .cast }))
        else if modestr = "convert" then
          .ok (.ok (findShim s name { be₃ with shimMode := .convert }))
        else .ok (.error "invalid shim mode")
      else .ok (.ok (findShim s name be₃))

/-- One ignore pattern applied to the identities: delete every identity
whose type name satisfies the pattern; a panic in `typeNameMatches`
propagates. -/
def ignoreOne (rx : String → Option (String → Bool)) (pat : String) :
    List (String × Elem) → Except Unit (List (String × Elem))
  | [] => .ok []
  | (k, e) :: rest => do
      let m ← typeNameMatchesE rx pat (typeName e)
      let rest' ← ignoreOne rx pat rest
      if m then .ok rest' else .ok ((k, e) :: rest')

/-- The pattern loop of `ignore` (`gen/source.go`), each pattern
whitespace-trimmed. -/
def ignoreList (rx : String → Option (String → Bool)) :
    List String → List (String × Elem) → Except Unit (List (String × Elem))
  | [], ids => .ok ids
  | pat :: rest, ids => do
      let ids' ← ignoreOne rx (goTrimSpace pat) ids
      ignoreList rx rest ids'

/-- ignore of `gen/source.go`: delete every declared type matching one of
the patterns; never a handler error, but a bad regex panics. -/
def ignoreDir (rx : String → Option (String → Bool)) (text : List String)
    (s : Source) : Except Unit (Except String Source) :=
  if text.length < 2 then .ok (.ok s)
  else do
    let ids ← ignoreList rx (text.drop 1) s.identities
    .ok (.ok { s with identities := ids })

/-- astuple of `gen/source.go`: set the as-tuple flag of every named struct;
non-structs only warn. -/
def astupleOne (name : String) (ids : List (String × Elem)) :
    List (String × Elem) :=
  match lookupA ids name with
  | some (.strct v a _ fs) => insertA ids name (.strct v a true fs)
  | _ => ids

def astupleDir (text : List String) (s : Source) :
    Except Unit (Except String Source) :=
  if text.length < 2 then .ok (.ok s)
  else
    .ok (.ok { s with
      identities :=
        (text.drop 1).foldl (fun ids item => astupleOne (goTrimSpace item) ids)
          s.identities })

/-- The `directives` table of `gen/source.go`. -/
def directiveFor (rx : String → Option (String → Bool)) (name : String) :
    Option (List String → Source → Except Unit (Except String Source)) :=
  if name = "shim" then some applyShim
  else if name = "ignore" then some (ignoreDir rx)
  else if name = "tuple" then some astupleDir
  else none

/-- The loop body of `source.applyDirectives`: known directives run (handler
errors are warned and skipped, panics abort), unknown ones are kept for the
per-pass stage. -/
def applyDirectivesLoop (rx : String → Option (String → Bool)) :
    List String → Source → List String → Except Unit (Source × List String)
  | [], s, newdirs => .ok (s, newdirs)
  | d :: rest, s, newdirs =>
      let chunks := goSplit d ' '
      match directiveFor rx (chunks.getD 0 "") with
      | some fn => do
          let r ← fn chunks s
          match r with
          | .ok s' => applyDirectivesLoop rx rest s' newdirs
          | .error _ => applyDirectivesLoop rx rest s newdirs
      | none => applyDirectivesLoop rx rest s (newdirs ++ [d])

/-- source.applyDirectives. -/
def applyDirectives (rx : String → Option (String → Bool)) (s : Source) :
    Except Unit Source := do
  let (s', nd) ← applyDirectivesLoop rx s.directives s []
  .ok { s' with directives := nd }

/-! ## The resolver (`gen/source.go`: `process` and `resolve`) -/

/-- The raw type expression received from the parser, restricted to the
named-identifier form exercised by alias declarations (`*ast.Ident`); the
other expression forms of `parseExpr` are not needed for the settled
claims. -/
inductive GoExpr where
  | ident (name : String)
  deriving DecidableEq, Repr

/-- parseExpr of `gen/source.go` on the identifier form: `Ident(name)`
(the non-local warning is logging only). -/
def parseExpr : GoExpr → Option Elem
  | .ident name => some (.base (identBase name))

/-- The declaration loop of `source.process`: translate each spec,
deferring unresolved identifier bases into the pending link set and
installing everything else aliased under its declared name. -/
def processLoop : List (String × GoExpr) → List (String × Elem) →
    List (String × BaseData) → List (String × Elem) × List (String × BaseData)
  | [], ids, defs => (ids, defs)
  | (name, ex) :: rest, ids, defs =>
      match parseExpr ex with
      | none => processLoop rest ids defs
      | some el =>
          match el with
          | .base b =>
              if b.value = .ident then
                processLoop rest ids (defs ++ [(name, b)])
              else
                processLoop rest (ids ++ [(name, Elem.aliasSet (.base b) name)]) defs
          | other =>
              processLoop rest (ids ++ [(name, Elem.aliasSet other name)]) defs

/-- One sweep of `source.resolve`: in order, each pending entry whose target
type name is already resolved is copied, re-aliased and installed; the rest
stay pending. The boolean reports whether any progress was made. -/
def resolveSweep : List (String × Elem) → List (String × BaseData) →
    List (String × Elem) × List (String × BaseData) × Bool
  | ids, [] => (ids, [], false)
  | ids, (name, be) :: rest =>
      match lookupA ids (typeName (.base be)) with
      | some n =>
          let nt := Elem.aliasSet n.copy name
          let r := resolveSweep (insertA ids name nt) rest
          (r.1, r.2.1, true)
      | none =>
          let r := resolveSweep ids rest
          (r.1, (name, be) :: r.2.1, r.2.2)

/-- The progress loop of `source.resolve`. The Go loop runs while progress
is made and entries remain; every progressing sweep removes at least one
pending entry, so `pending.length + 1` sweeps of fuel reproduce it. -/
def resolveLoop : Nat → List (String × Elem) → List (String × BaseData) →
    List (String × Elem)
  | 0, ids, _ => ids
  | fuel + 1, ids, pending =>
      if pending.isEmpty then ids
      else
        let r := resolveSweep ids pending
        if r.2.2 then resolveLoop fuel r.1 r.2.1 else r.1

/-- source.resolve (leftover pending entries only warn). -/
def resolveLs (ids : List (String × Elem)) (ls : List (String × BaseData)) :
    List (String × Elem) :=
  resolveLoop (ls.length + 1) ids ls

/-- source.process: build the identities then resolve the deferred link
set. -/
def processSpecs (specs : List (String × GoExpr)) : List (String × Elem) :=
  let r := processLoop specs [] []
  if r.2.isEmpty then r.1 else resolveLs r.1 r.2

/-- The pending chain `[n₁ ↦ prev, n₂ ↦ n₁, …]` in which each entry's
target is the previous name: the shape `process` defers for a declaration
chain written top-down (each target not yet a primitive name). -/
def chainAsc : List String → String → List (String × BaseData)
  | [], _ => []
  | n :: rest, prev =>
      (n, BaseData.aliasSet { value := Primitive.ident } prev) :: chainAsc rest n

/-! ## MessagePack integer readers (`msgp/read.go`, `msgp/read_bytes.go`)

Bytes are `Nat` (below 256 for well-formed buffers); signed results are
`Int` with two's-complement interpretation made explicit. The wire-format
lead bytes and the fixint helpers live in the library's `const.go`, which is
not among the provided sources; they are modelled from the MessagePack
format the spec describes (the standard values). -/

/-- Modelled from the spec: the MessagePack integer lead bytes of the
missing const.go. -/
def mnil : Nat := 0xc0
def mint8 : Nat := 0xd0
def mint16 : Nat := 0xd1
def mint32 : Nat := 0xd2
def mint64 : Nat := 0xd3
def muint8 : Nat := 0xcc
def muint16 : Nat := 0xcd
def muint32 : Nat := 0xce
def muint64 : Nat := 0xcf

/-- Modelled from the spec: `isfixint` — the positive fixint range is the
bytes with high bit clear. -/
def isfixint (b : Nat) : Bool := b < 128

/-- Modelled from the spec: `rfixint` — the fixint payload is the byte
itself. -/
def rfixint (b : Nat) : Nat := b

/-- Modelled from the spec: `isnfixint` — the negative fixint range is the
bytes with the top three bits set. -/
def isnfixint (b : Nat) : Bool := b &&& 0xe0 = 0xe0

/-- Modelled from the spec: `rnfixint` is `int8(b)` — two's complement of
the byte, which the `isnfixint` guard constrains to `0xe0 ≤ b < 0x100`. -/
def rnfixint (b : Nat) : Int := (b : Int) - 256

/-- Two's-complement reading of a `w`-bit unsigned value, making explicit
the effect of Go's shift-and-or construction of signed integers from
bytes. -/
def toSigned (w : Nat) (n : Nat) : Int :=
  if n < 2 ^ (w - 1) then (n : Int) else (n : Int) - 2 ^ w

/-- Byte access with the bounds already checked by the caller, as in the
source (`b[i]` after an explicit length test). -/
def byteAt (b : List Nat) (i : Nat) : Nat := b.getD i 0

/-- getMuint8/getMuint16/getMuint32/getMuint64 of `msgp/integers.go`:
big-endian payloads at offsets 1…. -/
def getMuint8 (b : List Nat) : Nat := byteAt b 1

def getMuint16 (b : List Nat) : Nat := byteAt b 1 * 256 + byteAt b 2

def getMuint32 (b : List Nat) : Nat :=
  byteAt b 1 * 16777216 + byteAt b 2 * 65536 + byteAt b 3 * 256 + byteAt b 4

def getMuint64 (b : List Nat) : Nat :=
  byteAt b 1 * 72057594037927936 + byteAt b 2 * 281474976710656
    + byteAt b 3 * 1099511627776 + byteAt b 4 * 4294967296
    + byteAt b 5 * 16777216 + byteAt b 6 * 65536 + byteAt b 7 * 256
    + byteAt b 8

/-- getMint8/16/32/64 of `msgp/integers.go`: the same byte layouts read as
two's-complement signed values (Go builds them by shifting converted bytes
in the signed type, which is exactly the two's-complement reading). -/
def getMint8 (b : List Nat) : Int := toSigned 8 (getMuint8 b)

def getMint16 (b : List Nat) : Int := toSigned 16 (getMuint16 b)

def getMint32 (b : List Nat) : Int := toSigned 32 (getMuint32 b)

def getMint64 (b : List Nat) : Int := toSigned 64 (getMuint64 b)

/-- The wire types of `msgp/read.go` (`type Type byte`). -/
inductive MsgType where
  | invalidType
  | strType
  | binType
  | mapType
  | arrayType
  | float64Type
  | float32Type
  | boolType
  | intType
  | uintType
  | nilType
  | extensionType
  | complex64Type
  | complex128Type
  | timeType
  deriving DecidableEq, Repr

/-- The errors surfaced by the integer readers: stream EOF (fwd.Reader),
short buffers, bad prefixes (TypeError via badPrefix), and the overflow
errors with their failed bit sizes. -/
inductive RErr where
  | eof
  | shortBytes
  | badPrefix (t : MsgType) (lead : Nat)
  | intOverflow (value : Int) (failedBitsize : Nat)
  | uintOverflow (value : Nat) (failedBitsize : Nat)
  deriving DecidableEq, Repr

/-- fwd.Reader.Next over a byte list: consume and return n bytes, or fail
when fewer are buffered (io.EOF / ErrUnexpectedEOF). -/
def rNext (n : Nat) (r : List Nat) : Except RErr (List Nat × List Nat) :=
  if r.length < n then .error .eof else .ok (r.take n, r.drop n)

/-- Reader.ReadInt64 of `msgp/read.go` over the buffered bytes: the result
(or error) and the remaining stream. After a successful one-byte peek the
one-byte skip cannot fail. -/
def readInt64 (r : List Nat) : Except RErr Int × List Nat :=
  match r with
  | [] => (.error .eof, r)
  | lead :: _ =>
    if isfixint lead then (.ok (rfixint lead : Nat), r.drop 1)
    else if isnfixint lead then (.ok (rnfixint lead), r.drop 1)
    else if lead = mint8 then
      match rNext 2 r with
      | .error e => (.error e, r)
      | .ok (p, r') => (.ok (getMint8 p), r')
    else if lead = mint16 then
      match rNext 3 r with
      | .error e => (.error e, r)
      | .ok (p, r') => (.ok (getMint16 p), r')
    else if lead = mint32 then
      match rNext 5 r with
      | .error e => (.error e, r)
      | .ok (p, r') => (.ok (getMint32 p), r')
    else if lead = mint64 then
      match rNext 9 r with
      | .error e => (.error e, r)
      | .ok (p, r') => (.ok (getMint64 p), r')
    else if lead = muint8 then
      match rNext 2 r with
      | .error e => (.error e, r)
      | .ok (p, r') => (.ok (getMuint8 p : Nat), r')
    else if lead = muint16 then
      match rNext 3 r with
      | .error e => (.error e, r)
      | .ok (p, r') => (.ok (getMuint16 p : Nat), r')
    else if lead = muint32 then
      match rNext 5 r with
      | .error e => (.error e, r)
      | .ok (p, r') => (.ok (getMuint32 p : Nat), r')
    else if lead = muint64 then
      match rNext 9 r with
      | .error e => (.error e, r)
      | .ok (p, r') =>
          let num := getMuint64 p
          if num > 9223372036854775807 then (.error (.uintOverflow num 64), r')
          else (.ok (num : Nat), r')
    else (.error (.badPrefix .intType lead), r)

/-- Reader.ReadInt8 of `msgp/read.go`: ReadInt64 followed by the 8-bit
range check (the check sees 0 when ReadInt64 errored, so the error is
passed through). -/
def readInt8 (r : List Nat) : Except RErr Int × List Nat :=
  match readInt64 r with
  | (.ok v, r') =>
      if v > 127 || v < -128 then (.error (.intOverflow v 8), r') else (.ok v, r')
  | (.error e, r') => (.error e, r')

/-- ReadInt64Bytes of `msgp/read_bytes.go`: the buffer-oriented reader,
returning the value and the remaining bytes. The `muint32` arm returns
`int64(getMint32(b))` in the source — the signed getter — and is translated
faithfully. -/
def readInt64Bytes (b : List Nat) : Except RErr (Int × List Nat) :=
  match b with
  | [] => .error .shortBytes
  | lead :: _ =>
    let l := b.length
    if isfixint lead then .ok ((rfixint lead : Nat), b.drop 1)
    else if isnfixint lead then .ok (rnfixint lead, b.drop 1)
    else if lead = mint8 || lead = muint8 then
      if l < 2 then .error .shortBytes
      else if lead = mint8 then .ok (getMint8 b, b.drop 2)
      else .ok ((getMuint8 b : Nat), b.drop 2)
    else if lead = mint16 || lead = muint16 then
      if l < 3 then .error .shortBytes
      else if lead = mint16 then .ok (getMint16 b, b.drop 3)
      else .ok ((getMuint16 b : Nat), b.drop 3)
    else if lead = mint32 || lead = muint32 then
      if l < 5 then .error .shortBytes
      else if lead = mint32 then .ok (getMint32 b, b.drop 5)
      else .ok (getMint32 b, b.drop 5)
    else if lead = mint64 || lead = muint64 then
      if l < 9 then .error .shortBytes
      else if lead = mint64 then .ok (getMint64 b, b.drop 9)
      else
        let num := getMuint64 b
        if num > 9223372036854775807 then .error (.uintOverflow num 64)
        else .ok ((num : Nat), b.drop 9)
    else .error (.badPrefix .intType lead)

/-- ReadInt8Bytes of `msgp/read_bytes.go`. -/
def readInt8Bytes (b : List Nat) : Except RErr (Int × List Nat) :=
  match readInt64Bytes b with
  | .ok (i, o) =>
      if i > 127 || i < -128 then .error (.intOverflow i 8) else .ok (i, o)
  | .error e => .error e

/-! ## Concrete scenario inputs -/

/-- The empty struct `type E struct\x7b\x7d` as it reaches a pass: aliased
`E`, varname `z` (set by `printTo`). -/
def emptyStructE : Elem := .strct "z" "E" false .nil

/-- The base element a cast-mode shim
`shim SpecialID as:[]byte using:toBytes/fromBytes mode:cast` substitutes
for a field of type SpecialID, named `z.Sid` by SetVarname. -/
def specialIDShimmed : BaseData :=
  { value := .bytes, alias_ := "SpecialID", convert := true,
    shimToBase := "toBytes", shimFromBase := "fromBytes",
    shimMode := .cast, vname := "z.Sid" }

/-- A struct `S` with the single shimmed field `Sid`. -/
def structS : Elem :=
  .strct "z" "S" false (.cons "Sid" "" "Sid" (.base specialIDShimmed) .nil)

/-- The star-shim base installed by `shim *T as:int using:f/g`: needs-ref
set, aliased `T`. -/
def starShimBe : BaseData :=
  { value := .int, alias_ := "T", convert := true, needsref := true,
    shimToBase := "f", shimFromBase := "g" }

/-- A struct `S` with one field `F` of (unresolved) type `T`, the field
expression already `z.F`. -/
def structWithT : Elem :=
  .strct "z" "S" false
    (.cons "F" "" "F" (.base { value := .ident, alias_ := "T", vname := "z.F" }) .nil)

/-- A source with one declared type and one ignore directive whose regex
does not compile. -/
def badRegexSource : Source :=
  { pkg := "tests"
    identities := [("Foo", .strct "" "Foo" false .nil)]
    directives := ["ignore reg=("] }

/-- A slice-of-string element before varname assignment (`type L []string`
as the resolver leaves it, names unset). -/
def sliceOfString : Elem := .slice "" "L" "" (.base { value := .str })

/-- A source whose only directive is a shim with too few arguments. -/
def shimAritySource : Source :=
  { pkg := "tests"
    identities := [("Foo", .strct "" "Foo" false .nil)]
    directives := ["shim X"] }

/-- The declaration chain `type A uint64; type B A; type C B; type D C`. -/
def chainSpecs : List (String × GoExpr) :=
  [("A", .ident "uint64"), ("B", .ident "A"), ("C", .ident "B"), ("D", .ident "C")]

/-- The identifier-generation invariant of a phase run with prefix `p` from
a fresh counter: the prefix is `p` and every ghost-logged minted name is
`p ++ %04d(n)` for some n. `generatorSet.Print` establishes it with
`resetIdent("zb")` before each pass, `printTo`'s SetVarname phase with
prefix `za`. -/
def PfxMinted (p : String) (st : IdState) : Prop :=
  st.pfx = p ∧ ∀ x ∈ st.minted, ∃ n, x = p ++ pad4 n

/-- Decidable equality for `Except`, used to evaluate the reader results. -/
instance exceptDecEq {ε α : Type} [DecidableEq ε] [DecidableEq α] :
    DecidableEq (Except ε α)
  | .ok a, .ok b =>
      if h : a = b then isTrue (by rw [h])
      else isFalse (by intro hh; cases hh; exact h rfl)
  | .ok _, .error _ => isFalse (by intro h; cases h)
  | .error _, .ok _ => isFalse (by intro h; cases h)
  | .error a, .error b =>
      if h : a = b then isTrue (by rw [h])
      else isFalse (by intro hh; cases hh; exact h rfl)

/-! ## Theorems -/

set_option maxRecDepth 8000

/-- C2 counterexample: the decode method emitted for the zero-field struct
`type E struct\x7b\x7d` does declare the `field` scratch variable
(`decodeGen.structAsMap` declares it unconditionally), contradicting the
claim that neither emitted method declares it. -/
theorem C2_counterexample :
    ("field", "[]byte") ∈ (decExecute emptyStructE printPassState).2.decls := by
  decide

/-- C2 (amended): for `type E struct\x7b\x7d` the emitted decode's
struct-as-map switch has no case arms, only the default skip-one arm, and
the emitted encode declares no scratch variables at all — but the decode
method always declares the `field` scratch variable. The first conjunct is
the full emitted decode text. -/
theorem C2_empty_struct_amended :
    (decExecute emptyStructE printPassState).2.out
      = "\n// DecodeMsg implements msgp.Decoder\nfunc (z *E) DecodeMsg(dc *msgp.Reader) (err error) \x7b\nvar field []byte\nvar zb0001 uint32\nzb0001, err = dc.ReadMapHeader()\nif err != nil \x7b return \x7d\nfor zb0001 > 0 \x7b\nzb0001--\nfield, err = dc.ReadMapKeyPtr()\nif err != nil \x7b return \x7d\nswitch string(field) \x7b\ndefault:\nerr = dc.Skip()\nif err != nil \x7b return \x7d\n\x7d\n\x7d\nreturn\n\x7d\n"
    ∧ goContains (decExecute emptyStructE printPassState).2.out "\ncase " = false
    ∧ goContains (decExecute emptyStructE printPassState).2.out
        "\nswitch string(field) \x7b\ndefault:\nerr = dc.Skip()" = true
    ∧ (encExecute emptyStructE printPassState).decls = []
    ∧ ("field", "[]byte") ∈ (decExecute emptyStructE printPassState).2.decls := by
  refine ⟨by decide, by decide, by decide, by decide, by decide⟩

/-- C3 counterexample: for the cast-mode shimmed field `Sid` of struct `S`,
the emitted encode declares no temporary at all — the conversion
`toBytes(z.Sid)` is passed inline to the bytes writer — contradicting the
claim that a temporary of the shim's base type is declared and assigned. -/
theorem C3_counterexample :
    (encExecute structS printPassState).decls = []
    ∧ goContains (encExecute structS printPassState).out
        "\nerr = en.WriteBytes(toBytes(z.Sid))" = true := by
  exact ⟨by decide, by decide⟩

/-- C4 counterexample: the pattern `regal` is neither of the form
`reg=expr` nor `reg!=expr`, so under the claim it should match only the
type name `regal` itself; but `typeNameMatches` treats every pattern longer
than four bytes starting with `reg` as a regex (here `l`, which matches
`lion`), so it accepts `lion`. -/
theorem C4_counterexample :
    typeNameMatchesE litRegexp "regal" "lion" = .ok true
    ∧ ("regal" : String) ≠ "lion" := by
  exact ⟨by decide, by decide⟩

/-- C5 counterexample: an ignore directive whose `reg=` pattern is the
invalid regular expression `(` panics inside `regexp.MustCompile` as soon
as it is matched against a declared type, aborting directive application —
the run does not continue. -/
theorem C5_counterexample :
    applyDirectives litRegexp badRegexSource = .error () := by
  decide

/-- C8 counterexample: substituting the star-shim base (needs-ref set)
for the field `F : T` of struct `S` rewrites the substituted node's varname
from `z.F` to `&z.F`, so the substituted node's varname does not equal the
varname of the node it replaced. -/
theorem C8_counterexample :
    nextShim structWithT "T" starShimBe
      = .strct "z" "S" false
          (.cons "F" "" "F"
            (.base { value := .int, alias_ := "T", convert := true,
                     needsref := true, shimToBase := "f", shimFromBase := "g",
                     vname := "&z.F" }) .nil)
    ∧ ("&z.F" : String) ≠ "z.F" := by
  exact ⟨by decide, by decide⟩

/-- C10 (code bug): on the muint32-prefixed encoding of 2^31 the streaming
`Reader.ReadInt64` returns 2147483648 while the buffer-oriented
`ReadInt64Bytes` returns -2147483648 with no error — its muint32 arm calls
the signed getter `getMint32` instead of `getMuint32`, contradicting the
repository's stated intent that unsigned encodings below the int64 range
decode to their numeric value in both paths. -/
theorem C10_divergence_eval :
    readInt64 [0xce, 0x80, 0x00, 0x00, 0x00] = (.ok 2147483648, [])
    ∧ readInt64Bytes [0xce, 0x80, 0x00, 0x00, 0x00] = .ok (-2147483648, []) := by
  exact ⟨by decide, by decide⟩

theorem complexityFields_eq_sum : ∀ fs : Fields,
    complexityFields fs = (fs.elems.map complexity).sum
  | .nil => rfl
  | .cons _ _ _ e rest => by
      rw [complexityFields, Fields.elems, List.map_cons, List.sum_cons,
        complexityFields_eq_sum rest]

theorem complexity_pos (e : Elem) : 0 < complexity e := by
  cases e with
  | base b => unfold complexity; split <;> omega
  | ptr v a x => unfold complexity; omega
  | slice v a i x => unfold complexity; omega
  | arr v a i s x => unfold complexity; omega
  | mp v a k vi x => unfold complexity; omega
  | strct v a t fs => unfold complexity; omega

mutual
theorem nextShim_eq_specAux (e : Elem) (id : String) (be : BaseData)
    (hext : ¬ be.value = .extension) (href : be.needsref = false) :
    nextShim e id be = specShimSubst e id be := by
  cases e with
  | base b =>
      rw [nextShim, specShimSubst]
      split
      · rw [BaseData.setVname]
        simp [hext, href]
      · rfl
  | ptr v a x =>
      rw [nextShim, specShimSubst]
      split
      · rw [BaseData.setVname]; simp [hext, href]
      · rw [nextShim_eq_specAux x id be hext href]
  | slice v a i x =>
      rw [nextShim, specShimSubst]
      split
      · rw [BaseData.setVname]; simp [hext, href]
      · rw [nextShim_eq_specAux x id be hext href]
  | arr v a i s x =>
      rw [nextShim, specShimSubst]
      split
      · rw [BaseData.setVname]; simp [hext, href]
      · rw [nextShim_eq_specAux x id be hext href]
  | mp v a k vi x =>
      rw [nextShim, specShimSubst]
      split
      · rw [BaseData.setVname]; simp [hext, href]
      · rw [nextShim_eq_specAux x id be hext href]
  | strct v a t fs =>
      rw [nextShim, specShimSubst]
      split
      · rw [BaseData.setVname]; simp [hext, href]
      · rw [nextShimFields_eq_specAux fs id be hext href]

theorem nextShimFields_eq_specAux (fs : Fields) (id : String) (be : BaseData)
    (hext : ¬ be.value = .extension) (href : be.needsref = false) :
    nextShimFields fs id be = specShimSubstFields fs id be := by
  cases fs with
  | nil => rfl
  | cons t r n e rest =>
      rw [nextShimFields, specShimSubstFields,
        nextShim_eq_specAux e id be hext href,
        nextShimFields_eq_specAux rest id be hext href]
end

/-- C8 (amended): for a shim base that is neither an extension nor
needs-ref (no leading `*` in the directive), `nextShim` performs exactly
the substitution the spec describes: every node whose canonical type name
equals the target, appearing as the child of another node, is replaced by a
copy of the shim base carrying the replaced node's varname. For needs-ref
or extension shim bases the substituted varname is instead rewritten by
`SetVarname` (a leading `*` stripped, else `&` prepended). -/
theorem C8_shim_subst_amended (e : Elem) (id : String) (be : BaseData)
    (hext : ¬ be.value = .extension) (href : be.needsref = false) :
    nextShim e id be = specShimSubst e id be :=
  nextShim_eq_specAux e id be hext href

/-- Witness for C8: the plain (non-star) version of the `T` shim substituted
into `structWithT` coincides with the spec substitution, preserving the
field's varname `z.F`. -/
theorem C8_shim_subst_amended_witness :
    nextShim structWithT "T" { starShimBe with needsref := false }
      = specShimSubst structWithT "T" { starShimBe with needsref := false }
    ∧ specShimSubst structWithT "T" { starShimBe with needsref := false }
      = .strct "z" "S" false
          (.cons "F" "" "F"
            (.base { value := .int, alias_ := "T", convert := true,
                     needsref := false, shimToBase := "f", shimFromBase := "g",
                     vname := "z.F" }) .nil) :=
  ⟨C8_shim_subst_amended structWithT "T" { starShimBe with needsref := false }
    (by decide) (by decide), by decide⟩

/-- C6: For every IR node, Complexity returns 1 for a Base node, except 2
when Convert is set and the node is printable; 1 plus the child's complexity
for Pointer, Slice and Array; 2 plus the value's complexity for Map; and
1 plus the sum of the fields' complexities for Struct — and the result is
always a positive integer. -/
theorem C6_complexity :
    (∀ b : BaseData, complexity (.base b)
        = if b.convert && b.printable then 2 else 1)
    ∧ (∀ v a x, complexity (.ptr v a x) = 1 + complexity x)
    ∧ (∀ v a i x, complexity (.slice v a i x) = 1 + complexity x)
    ∧ (∀ v a i s x, complexity (.arr v a i s x) = 1 + complexity x)
    ∧ (∀ v a k vi x, complexity (.mp v a k vi x) = 2 + complexity x)
    ∧ (∀ v a t fs, complexity (.strct v a t fs)
        = 1 + (fs.elems.map complexity).sum)
    ∧ (∀ e : Elem, 0 < complexity e) := by
  refine ⟨fun b => rfl, fun v a x => rfl, fun v a i x => rfl,
    fun v a i s x => rfl, fun v a k vi x => rfl, ?_, complexity_pos⟩
  intro v a t fs
  rw [← complexityFields_eq_sum]
  rfl

/-- C1 counterexample: for the named type `E` (the empty struct), the
decode pass and the unmarshal pass — each started by `generatorSet.Print`
with `resetIdent("zb")` — both locally declare `field` and `zb0001`, so the
sets of locally declared identifiers of the two passes are not disjoint. -/
theorem C1_counterexample :
    ("zb0001", "uint32") ∈ (decExecute emptyStructE printPassState).2.decls
    ∧ ("zb0001", "uint32") ∈ (unmExecute emptyStructE printPassState).2.decls
    ∧ ("field", "[]byte") ∈ (decExecute emptyStructE printPassState).2.decls
    ∧ ("field", "[]byte") ∈ (unmExecute emptyStructE printPassState).2.decls := by
  refine ⟨by decide, by decide, by decide, by decide⟩

/-- Association-list lookup after insert-or-update. -/
theorem lookupA_insertA {α : Type} (l : List (String × α)) (k m : String) (v : α) :
    lookupA (insertA l k v) m = if m = k then some v else lookupA l m := by
  induction l with
  | nil =>
      simp only [insertA, lookupA]
      by_cases h : m = k
      · subst h; simp
      · rw [if_neg (fun hh : k = m => h hh.symm), if_neg h]
  | cons hd tl ih =>
      obtain ⟨a, w⟩ := hd
      by_cases hk : a = k
      · have h1 : insertA ((a, w) :: tl) k v = (k, v) :: tl := by
          simp only [insertA, if_pos hk]
        rw [h1]
        subst hk
        simp only [lookupA]
        by_cases hm : a = m
        · rw [if_pos hm, if_pos hm.symm]
        · rw [if_neg hm, if_neg (fun hh : m = a => hm hh.symm), if_neg hm]
      · have h1 : insertA ((a, w) :: tl) k v = (a, w) :: insertA tl k v := by
          simp only [insertA, if_neg hk]
        rw [h1]
        simp only [lookupA]
        by_cases ham : a = m
        · have hmk : ¬ m = k := fun hh => hk (ham.trans hh)
          rw [if_pos ham, if_neg hmk, if_pos ham]
        · rw [if_neg ham, if_neg ham, ih]

/-- The type name of a pending chain entry is its target name. -/
theorem typeName_pendBase (t : String) :
    typeName (.base (BaseData.aliasSet { value := Primitive.ident } t)) = t := by
  by_cases h : t = "" <;>
    simp [typeName, BaseData.aliasSet, BaseData.baseType, h]

/-- Re-aliasing a resolved base: with a dot-free name and a non-IDENT kind,
`BaseElem.Alias` sets the alias, forces Convert, and leaves the rest. -/
theorem aliasSet_resolved (b : BaseData) (t : String)
    (hv : b.value ≠ .ident) (hd : goContains t "." = false) :
    b.aliasSet t = { b with alias_ := t, convert := true } := by
  simp [BaseData.aliasSet, hv, hd]

/-- The length of a pending chain equals the number of chained names. -/
theorem chainAsc_length (ns : List String) (p : String) :
    (chainAsc ns p).length = ns.length := by
  induction ns generalizing p with
  | nil => rfl
  | cons x xs ih => simp [chainAsc, ih]

/-- One resolver sweep over an alias chain whose head is resolved: every
chain entry resolves in that single sweep (each looking up the entry
resolved just before it), nothing stays pending, and entries outside the
chain are untouched. -/
theorem resolveSweep_chain :
    ∀ (ns : List String) (p : String) (l : List (String × Elem)) (b : BaseData),
      b.value ≠ .ident →
      lookupA l p = some (.base b) →
      ns.Nodup →
      (∀ n ∈ ns, lookupA l n = none) →
      (∀ n ∈ ns, goContains n "." = false) →
      (resolveSweep l (chainAsc ns p)).2.1 = []
      ∧ (ns ≠ [] → (resolveSweep l (chainAsc ns p)).2.2 = true)
      ∧ (∀ n ∈ ns, lookupA (resolveSweep l (chainAsc ns p)).1 n
            = some (.base { b with alias_ := n, convert := true }))
      ∧ (∀ m, m ∉ ns → lookupA (resolveSweep l (chainAsc ns p)).1 m = lookupA l m)
  | [], p, l, b => by
      intro _ _ _ _ _
      exact ⟨rfl, fun h => absurd rfl h,
        fun n hn => absurd hn (List.not_mem_nil n), fun m _ => rfl⟩
  | n :: rest, p, l, b => by
      intro hv hp hnd hfresh hdot
      have hlook : lookupA l
          (typeName (.base (BaseData.aliasSet { value := Primitive.ident } p)))
          = some (.base b) := by rw [typeName_pendBase]; exact hp
      have hba : Elem.aliasSet (Elem.copy (.base b)) n
          = .base { b with alias_ := n, convert := true } := by
        have h0 : Elem.aliasSet (Elem.copy (.base b)) n = .base (b.aliasSet n) := rfl
        rw [h0, aliasSet_resolved b n hv (hdot n (List.mem_cons_self n rest))]
      have hnd' : rest.Nodup := (List.nodup_cons.mp hnd).2
      have hnin : n ∉ rest := (List.nodup_cons.mp hnd).1
      have ih := resolveSweep_chain rest n
        (insertA l n (.base { b with alias_ := n, convert := true }))
        { b with alias_ := n, convert := true }
        hv
        (by rw [lookupA_insertA]; simp)
        hnd'
        (by
          intro m hm
          rw [lookupA_insertA]
          have hmn : m ≠ n := fun hh => hnin (hh ▸ hm)
          simp only [hmn, if_false]
          exact hfresh m (List.mem_cons_of_mem n hm))
        (fun m hm => hdot m (List.mem_cons_of_mem n hm))
      have hred : resolveSweep l (chainAsc (n :: rest) p)
          = ((resolveSweep (insertA l n (.base { b with alias_ := n, convert := true }))
                (chainAsc rest n)).1,
             (resolveSweep (insertA l n (.base { b with alias_ := n, convert := true }))
                (chainAsc rest n)).2.1,
             true) := by
        simp only [chainAsc, resolveSweep, hlook, hba]
      rw [hred]
      obtain ⟨ihEmpty, _, ihIn, ihFrame⟩ := ih
      refine ⟨ihEmpty, fun _ => rfl, ?_, ?_⟩
      · intro m hm
        rcases List.mem_cons.mp hm with hm | hm
        · subst hm
          rw [ihFrame m hnin, lookupA_insertA]
          simp
        · exact ihIn m hm
      · intro m hm
        have hm1 : m ≠ n := fun hh => hm (by simp [hh])
        have hm2 : m ∉ rest := fun hh => hm (List.mem_cons_of_mem n hh)
        rw [ihFrame m hm2, lookupA_insertA]
        simp [hm1]

/-- C7: the resolver collapses `type A uint64; type B A; type C B;
type D C` so that the entry for `D` is a Base of kind uint64 aliased `D`;
and in general, for any alias chain over distinct fresh dot-free names
whose head resolves to a non-IDENT base, every chain member resolves to
that base re-aliased under its own name. -/
theorem C7_alias_chain :
    lookupA (processSpecs chainSpecs) "D"
      = some (.base { value := .uint64, alias_ := "D", convert := true })
    ∧ ∀ (b : BaseData) (p : String) (ns : List String) (l : List (String × Elem)),
        b.value ≠ .ident →
        lookupA l p = some (.base b) →
        ns.Nodup →
        (∀ n ∈ ns, lookupA l n = none) →
        (∀ n ∈ ns, goContains n "." = false) →
        ∀ n ∈ ns,
          lookupA (resolveLs l (chainAsc ns p)) n
            = some (.base { b with alias_ := n, convert := true }) := by
  constructor
  · decide
  · intro b p ns l hv hp hnd hfresh hdot n hn
    cases ns with
    | nil => cases hn
    | cons n₀ rest =>
        obtain ⟨hEmpty, hProg, hIn, _⟩ :=
          resolveSweep_chain (n₀ :: rest) p l b hv hp hnd hfresh hdot
        have hne : chainAsc (n₀ :: rest) p ≠ [] := by simp [chainAsc]
        have hfuel : resolveLs l (chainAsc (n₀ :: rest) p)
            = (resolveSweep l (chainAsc (n₀ :: rest) p)).1 := by
          unfold resolveLs
          rw [chainAsc_length]
          show resolveLoop (rest.length + 1 + 1) l (chainAsc (n₀ :: rest) p)
            = (resolveSweep l (chainAsc (n₀ :: rest) p)).1
          rw [resolveLoop]
          rw [if_neg (by simp [List.isEmpty_iff, hne])]
          simp only [hProg (by simp), if_true, hEmpty]
          rw [resolveLoop]
          simp
        rw [hfuel]
        exact hIn n hn

/-- Witness for C7: the chain `B → A`, `C → B` over a resolved `A ↦ uint64`
resolves `C` to a uint64 base aliased `C`. -/
theorem C7_alias_chain_witness :
    lookupA
      (resolveLs [("A", .base { value := .uint64, alias_ := "A", convert := true })]
        (chainAsc ["B", "C"] "A")) "C"
      = some (.base { value := .uint64, alias_ := "C", convert := true }) :=
  C7_alias_chain.2 { value := .uint64, alias_ := "A", convert := true } "A"
    ["B", "C"] _ (by decide) (by decide) (by decide) (by decide) (by decide)
    "C" (by decide)

/-- Reading the stream `[0xcc, u]` (a muint8-prefixed value) with ReadInt64
yields the numeric value. -/
theorem readInt64_muint8 (u : Nat) :
    readInt64 [muint8, u] = (.ok (u : Int), []) := by
  have h1 : isfixint 204 = false := by decide
  have h2 : isnfixint 204 = false := by decide
  simp [readInt64, h1, h2, muint8, mint8, mint16, mint32, mint64,
    muint16, muint32, muint64, rNext, getMuint8, byteAt]

/-- Reading the buffer `[0xcc, u]` with ReadInt64Bytes yields the numeric
value and an empty remainder. -/
theorem readInt64Bytes_muint8 (u : Nat) :
    readInt64Bytes [muint8, u] = .ok ((u : Int), []) := by
  have h1 : isfixint 204 = false := by decide
  have h2 : isnfixint 204 = false := by decide
  simp [readInt64Bytes, h1, h2, muint8, mint8, mint16, mint32, mint64,
    muint16, muint32, muint64, getMuint8, byteAt]

/-- C9: decoding a MessagePack value encoded with the uint8 prefix into an
int8 target succeeds with the numeric value when it is at most 127 — on
both the streaming path (Reader.ReadInt8) and the buffer path
(ReadInt8Bytes) — and yields an IntOverflow error with failed bit size 8
when it is 128 through 255. -/
theorem C9_int8_from_uint8 (u : Nat) (hu : u < 256) :
    (u ≤ 127 →
      readInt8 [muint8, u] = (.ok (u : Int), [])
      ∧ readInt8Bytes [muint8, u] = .ok ((u : Int), []))
    ∧ (127 < u →
      readInt8 [muint8, u] = (.error (.intOverflow (u : Int) 8), [])
      ∧ readInt8Bytes [muint8, u] = .error (.intOverflow (u : Int) 8)) := by
  constructor
  · intro hle
    have hc : ((u : Int) > 127 || (u : Int) < -128) = false := by
      simp only [Bool.or_eq_false_iff, decide_eq_false_iff_not]
      constructor <;> [omega; omega]
    constructor
    · simp [readInt8, readInt64_muint8, hc]
      omega
    · simp [readInt8Bytes, readInt64Bytes_muint8, hc]
      omega
  · intro hgt
    have hc : ((u : Int) > 127 || (u : Int) < -128) = true := by
      simp only [Bool.or_eq_true_iff]
      left
      simp only [decide_eq_true_iff]
      omega
    constructor
    · simp [readInt8, readInt64_muint8, hc]
      omega
    · simp [readInt8Bytes, readInt64Bytes_muint8, hc]
      omega

/-- Witness for C9 at the in-range value 100 and the overflowing value 200. -/
theorem C9_int8_from_uint8_witness :
    (readInt8 [muint8, 100] = (.ok 100, [])
      ∧ readInt8Bytes [muint8, 100] = .ok (100, []))
    ∧ (readInt8 [muint8, 200] = (.error (.intOverflow 200 8), [])
      ∧ readInt8Bytes [muint8, 200] = .error (.intOverflow 200 8)) :=
  ⟨(C9_int8_from_uint8 100 (by decide)).1 (by decide),
   (C9_int8_from_uint8 200 (by decide)).2 (by decide)⟩

/-- C3 (amended): for every field whose type carries a shim in cast mode
(Convert set, ShimMode cast) and is not an unresolved identifier, the
emitted encode passes the shim's to-conversion `ToBase(varname)` inline as
the argument of the kind-specific writer; it declares no temporary and
mints no identifier (a temporary is declared only in convert mode). -/
theorem C3_cast_encode_amended (b : BaseData) (st : EmitState)
    (hc : b.convert = true) (hm : b.shimMode = .cast) (hv : b.value ≠ .ident)
    (hf : st.fuse = []) :
    encNext (.base b) st = encWriteAndCheck b.baseName b.toBaseConvert st
    ∧ (encNext (.base b) st).decls = st.decls
    ∧ (encNext (.base b) st).ids = st.ids := by
  have h1 : fuseHook st = st := by simp [fuseHook, hf]
  have h2 : encNext (.base b) st = encWriteAndCheck b.baseName b.toBaseConvert st := by
    simp [encNext, h1, hc, hm, hv]
  exact ⟨h2, by rw [h2]; rfl, by rw [h2]; rfl⟩

/-- Witness for C3 at the shimmed `SpecialID` field: no declaration is
produced and the emission is exactly the bytes-writer call on
`toBytes(z.Sid)`. -/
theorem C3_cast_encode_amended_witness :
    (encNext (.base specialIDShimmed) printPassState).decls = []
    ∧ encNext (.base specialIDShimmed) printPassState
        = encWriteAndCheck specialIDShimmed.baseName
            specialIDShimmed.toBaseConvert printPassState :=
  ⟨((C3_cast_encode_amended specialIDShimmed printPassState (by decide) (by decide)
      (by decide) (by decide)).2.1).trans rfl,
   (C3_cast_encode_amended specialIDShimmed printPassState (by decide) (by decide)
      (by decide) (by decide)).1⟩

/-- C4 (amended): `typeNameMatches` distinguishes patterns by length and
the `reg` prefix alone. A pattern of byte length at most 4 or not starting
with `reg` compares by string equality; a longer `reg`-prefixed pattern is
a regex pattern — negated with expression `pattern[5:]` when the fourth
byte is `!`, and otherwise (whatever the fourth byte is, `=` or not) a
plain regex with expression `pattern[4:]` — with a panic when the
expression does not compile. -/
theorem C4_typeNameMatches_amended (rx : String → Option (String → Bool))
    (pat tn : String) :
    (¬ (pat.length > 4 ∧ strTake pat 3 = "reg") →
        typeNameMatchesE rx pat tn = .ok (pat == tn))
    ∧ (pat.length > 4 → strTake pat 3 = "reg" → charAt pat 3 = '!' →
        typeNameMatchesE rx pat tn
          = match rx (strDrop pat 5) with
            | none => .error ()
            | some f => .ok (!(f tn)))
    ∧ (pat.length > 4 → strTake pat 3 = "reg" → charAt pat 3 ≠ '!' →
        typeNameMatchesE rx pat tn
          = match rx (strDrop pat 4) with
            | none => .error ()
            | some f => .ok (f tn)) := by
  refine ⟨?_, ?_, ?_⟩
  · intro h
    have hb : (pat.length > 4 && strTake pat 3 == "reg") = false := by
      rcases Decidable.not_and_iff_or_not.mp h with h1 | h1 <;>
        simp [h1]
    simp [typeNameMatchesE, hb]
  · intro h1 h2 h3
    have hb : (pat.length > 4 && strTake pat 3 == "reg") = true := by
      simp [h1, h2]
    simp only [typeNameMatchesE, hb, if_true, h3, if_pos]
    match rx (strDrop pat 5) with
    | none => rfl
    | some f =>
        by_cases hf : f tn = true <;> simp [hf]
  · intro h1 h2 h3
    have hb : (pat.length > 4 && strTake pat 3 == "reg") = true := by
      simp [h1, h2]
    simp only [typeNameMatchesE, hb, if_true, if_neg h3]
    match rx (strDrop pat 4) with
    | none => rfl
    | some f =>
        by_cases hf : f tn = true <;> simp [hf]

/-- Witness for C4: a negated regex pattern accepting a non-matching name,
and a short literal pattern comparing by equality. -/
theorem C4_typeNameMatches_amended_witness :
    typeNameMatchesE litRegexp "reg!=l" "king" = .ok true
    ∧ typeNameMatchesE litRegexp "Foo" "Foo" = .ok true :=
  ⟨((C4_typeNameMatches_amended litRegexp "reg!=l" "king").2.1 (by decide)
      (by decide) (by decide)).trans (by decide),
   ((C4_typeNameMatches_amended litRegexp "Foo" "Foo").1 (by decide)).trans
      (by decide)⟩

/-- C5 (amended): a malformed directive that its handler detects — here a
shim directive with too few arguments — produces a handler error that
`applyDirectives` logs and skips, leaving the source untouched and the run
alive; but (per the counterexample) an ignore directive whose `reg=`
expression fails to compile panics inside `MustCompile`, aborting the run
whenever at least one declared type is matched against it. -/
theorem C5_malformed_directive_amended (rx : String → Option (String → Bool))
    (s : Source) (h : s.directives = ["shim X"]) :
    applyDirectives rx s = .ok { s with directives := [] } := by
  simp [applyDirectives, h, applyDirectivesLoop, goSplit, splitOnChar,
    directiveFor, applyShim, Bind.bind, Except.bind]

/-- Witness for C5: the under-supplied shim directive on a concrete source
is skipped and the run continues. -/
theorem C5_malformed_directive_amended_witness :
    applyDirectives litRegexp shimAritySource
      = .ok { shimAritySource with directives := [] } :=
  C5_malformed_directive_amended litRegexp shimAritySource rfl

/-- Minting preserves the prefix invariant. -/
theorem pfxMinted_randIdent (p : String) (st : IdState)
    (h : PfxMinted p st) : PfxMinted p (randIdent st).2 := by
  obtain ⟨hp, hm⟩ := h
  refine ⟨hp, ?_⟩
  intro x hx
  simp only [randIdent, List.mem_cons] at hx
  rcases hx with hx | hx
  · exact ⟨st.next + 1, by rw [hx, hp]⟩
  · exact hm x hx

/-- The array-index retry loop preserves the prefix invariant. -/
theorem pfxMinted_mintArrayIdx (p vn : String) :
    ∀ (fuel : Nat) (idx : String) (st : IdState),
      PfxMinted p st → PfxMinted p (mintArrayIdx vn fuel idx st).2
  | 0, idx, st => by
      intro h
      rw [mintArrayIdx]
      split
      · exact h
      · exact h
  | fuel + 1, idx, st => by
      intro h
      rw [mintArrayIdx]
      split
      · exact h
      · exact pfxMinted_mintArrayIdx p vn fuel _ _ (pfxMinted_randIdent p st h)

/-- The map value-index retry loop preserves the prefix invariant. -/
theorem pfxMinted_mintValIdx (p k : String) :
    ∀ (fuel : Nat) (v : String) (st : IdState),
      PfxMinted p st → PfxMinted p (mintValIdx k fuel v st).2
  | 0, v, st => by
      intro h
      rw [mintValIdx]
      split
      · exact h
      · exact h
  | fuel + 1, v, st => by
      intro h
      rw [mintValIdx]
      split
      · exact h
      · exact pfxMinted_mintValIdx p k fuel _ _ (pfxMinted_randIdent p st h)

mutual
/-- SetVarname preserves the prefix invariant: every identifier it mints
carries the current prefix. -/
theorem pfxMinted_setVarname (p : String) :
    ∀ (e : Elem) (a : String) (st : IdState),
      PfxMinted p st → PfxMinted p (Elem.setVarname e a st).2
  | .base b, a, st => fun h => h
  | .ptr v al x, a, st => fun h => by
      simp only [Elem.setVarname]
      exact pfxMinted_setVarname p x _ st h
  | .slice v al i els, a, st => fun h => by
      simp only [Elem.setVarname]
      exact pfxMinted_setVarname p els _ _ (pfxMinted_randIdent p st h)
  | .arr v al i sz els, a, st => fun h => by
      simp only [Elem.setVarname]
      exact pfxMinted_setVarname p els _ _
        (pfxMinted_mintArrayIdx p a (a.length + 2) i st h)
  | .mp v al ki vi x, a, st => fun h => by
      simp only [Elem.setVarname]
      exact pfxMinted_setVarname p x _ _
        (pfxMinted_mintValIdx p _ 2 vi _ (pfxMinted_randIdent p st h))
  | .strct v al tu fs, a, st => fun h => by
      simp only [Elem.setVarname]
      exact pfxMinted_setVarnameF p fs a st h

/-- Field-list companion of `pfxMinted_setVarname`. -/
theorem pfxMinted_setVarnameF (p : String) :
    ∀ (fs : Fields) (a : String) (st : IdState),
      PfxMinted p st → PfxMinted p (Fields.setVarname fs a st).2
  | .nil, a, st => fun h => h
  | .cons t r n e rest, a, st => fun h => by
      simp only [Fields.setVarname]
      exact pfxMinted_setVarnameF p rest a _
        (pfxMinted_setVarname p e _ st h)
end

@[simp] theorem pr_ids (s : String) (st : EmitState) : (pr s st).ids = st.ids := rfl

@[simp] theorem declareVar_ids (n t : String) (st : EmitState) :
    (declareVar n t st).ids = st.ids := rfl

@[simp] theorem closeBlock_ids (st : EmitState) : (closeBlock st).ids = st.ids := rfl

@[simp] theorem nakedReturn_ids (st : EmitState) : (nakedReturn st).ids = st.ids := rfl

@[simp] theorem comment_ids (s : String) (st : EmitState) :
    (comment s st).ids = st.ids := rfl

@[simp] theorem clearMap_ids (s : String) (st : EmitState) :
    (clearMap s st).ids = st.ids := rfl

@[simp] theorem resizeMap_ids (a b c : String) (st : EmitState) :
    (resizeMap a b c st).ids = st.ids := rfl

@[simp] theorem resizeSlice_ids (a b c : String) (st : EmitState) :
    (resizeSlice a b c st).ids = st.ids := rfl

@[simp] theorem arrayCheck_ids (a b : String) (st : EmitState) :
    (arrayCheck a b st).ids = st.ids := rfl

@[simp] theorem initPtr_ids (a b : String) (c : Bool) (st : EmitState) :
    (initPtr a b c st).ids = st.ids := by
  unfold initPtr; split <;> rfl

@[simp] theorem decAssignAndCheck_ids (a b : String) (st : EmitState) :
    (decAssignAndCheck a b st).ids = st.ids := rfl

@[simp] theorem unmAssignAndCheck_ids (a b : String) (st : EmitState) :
    (unmAssignAndCheck a b st).ids = st.ids := rfl

@[simp] theorem appendRaw_ids (b : List Nat) (st : EmitState) :
    (appendRaw b st).ids = st.ids := rfl

@[simp] theorem fuseHook_ids (st : EmitState) : (fuseHook st).ids = st.ids := by
  unfold fuseHook; split <;> rfl

@[simp] theorem fuseAdd_ids (b : List Nat) (st : EmitState) :
    (fuseAdd b st).ids = st.ids := rfl

@[simp] theorem encWriteAndCheck_ids (a b : String) (st : EmitState) :
    (encWriteAndCheck a b st).ids = st.ids := rfl

mutual
/-- The decode pass preserves the prefix invariant on the identifier
state: every identifier it mints carries the pass prefix. -/
theorem pfxMinted_decNext (p : String) :
    ∀ (e : Elem) (st : EmitState),
      PfxMinted p st.ids → PfxMinted p (decNext e st).ids
  | .base b, st => fun h => by
      by_cases hcv : b.convert = true <;>
        cases hbv : b.value <;>
          by_cases hsm : b.shimMode = ShimMode.cast <;>
            simp only [decNext, hcv, hbv, hsm, Bool.false_eq_true, if_true,
              if_false, pr_ids, declareVar_ids, randIdent] <;>
            first
              | exact h
              | exact pfxMinted_randIdent p st.ids h
              | simp_all
  | .ptr vn al v, st => fun h => by
      simp only [decNext, closeBlock_ids]
      exact pfxMinted_decNext p v _ (by simpa using h)
  | .slice vn al i els, st => fun h => by
      simp only [decNext, closeBlock_ids]
      exact pfxMinted_decNext p els _
        (by simpa using pfxMinted_randIdent p st.ids h)
  | .arr vn al i sz els, st => fun h => by
      by_cases hb : isByteOrUint8Base els = true <;>
        simp only [decNext, hb, if_true, if_false, closeBlock_ids, pr_ids]
      · exact h
      · exact pfxMinted_decNext p els _
          (by simpa using pfxMinted_randIdent p st.ids h)
  | .mp vn al ki vi x, st => fun h => by
      simp only [decNext, closeBlock_ids, pr_ids]
      exact pfxMinted_decNext p x _
        (by simpa using pfxMinted_randIdent p st.ids h)
  | .strct vn al tu fs, st => fun h => by
      by_cases htu : tu = true <;>
        by_cases hhf : st.hasField = true <;>
          simp only [decNext, htu, hhf, Bool.not_true, Bool.not_false,
            Bool.false_eq_true, if_true, if_false, closeBlock_ids, pr_ids]
      · exact pfxMinted_decFieldsLoop p fs _
          (by simpa using pfxMinted_randIdent p st.ids h)
      · exact pfxMinted_decFieldsLoop p fs _
          (by simpa using pfxMinted_randIdent p st.ids h)
      · exact pfxMinted_decSwitchCases p fs _
          (by simpa using pfxMinted_randIdent p st.ids h)
      · exact pfxMinted_decSwitchCases p fs _
          (by simpa using pfxMinted_randIdent p st.ids h)

/-- Companion of `pfxMinted_decNext` for the tuple field loop. -/
theorem pfxMinted_decFieldsLoop (p : String) :
    ∀ (fs : Fields) (st : EmitState),
      PfxMinted p st.ids → PfxMinted p (decFieldsLoop fs st).ids
  | .nil, st => fun h => h
  | .cons t r n e rest, st => fun h => by
      simp only [decFieldsLoop]
      exact pfxMinted_decFieldsLoop p rest _ (pfxMinted_decNext p e st h)

/-- Companion of `pfxMinted_decNext` for the switch-case field loop. -/
theorem pfxMinted_decSwitchCases (p : String) :
    ∀ (fs : Fields) (st : EmitState),
      PfxMinted p st.ids → PfxMinted p (decSwitchCases fs st).ids
  | .nil, st => fun h => h
  | .cons t r n e rest, st => fun h => by
      simp only [decSwitchCases]
      exact pfxMinted_decSwitchCases p rest _
        (pfxMinted_decNext p e _ (by simpa using h))
end

mutual
/-- The unmarshal pass preserves the prefix invariant on the identifier
state. -/
theorem pfxMinted_unmNext (p : String) :
    ∀ (e : Elem) (st : EmitState),
      PfxMinted p st.ids → PfxMinted p (unmNext e st).ids
  | .base b, st => fun h => by
      by_cases hcv : b.convert = true <;>
        cases hbv : b.value <;>
          by_cases hsm : b.shimMode = ShimMode.cast <;>
            simp only [unmNext, hcv, hbv, hsm, Bool.false_eq_true, if_true,
              if_false, pr_ids, declareVar_ids, randIdent] <;>
            first
              | exact h
              | exact pfxMinted_randIdent p st.ids h
              | simp_all
  | .ptr vn al v, st => fun h => by
      simp only [unmNext, closeBlock_ids]
      exact pfxMinted_unmNext p v _ (by simpa using h)
  | .slice vn al i els, st => fun h => by
      simp only [unmNext, closeBlock_ids]
      exact pfxMinted_unmNext p els _
        (by simpa using pfxMinted_randIdent p st.ids h)
  | .arr vn al i sz els, st => fun h => by
      by_cases hb : isByteBase els = true <;>
        simp only [unmNext, hb, if_true, if_false, closeBlock_ids, pr_ids]
      · exact h
      · exact pfxMinted_unmNext p els _
          (by simpa using pfxMinted_randIdent p st.ids h)
  | .mp vn al ki vi x, st => fun h => by
      simp only [unmNext, closeBlock_ids, pr_ids]
      exact pfxMinted_unmNext p x _
        (by simpa using pfxMinted_randIdent p st.ids h)
  | .strct vn al tu fs, st => fun h => by
      by_cases htu : tu = true <;>
        by_cases hhf : st.hasField = true <;>
          simp only [unmNext, htu, hhf, Bool.not_true, Bool.not_false,
            Bool.false_eq_true, if_true, if_false, closeBlock_ids, pr_ids]
      · exact pfxMinted_unmFieldsLoop p fs _
          (by simpa using pfxMinted_randIdent p st.ids h)
      · exact pfxMinted_unmFieldsLoop p fs _
          (by simpa using pfxMinted_randIdent p st.ids h)
      · exact pfxMinted_unmSwitchCases p fs _
          (by simpa using pfxMinted_randIdent p st.ids h)
      · exact pfxMinted_unmSwitchCases p fs _
          (by simpa using pfxMinted_randIdent p st.ids h)

/-- Companion of `pfxMinted_unmNext` for the tuple field loop. -/
theorem pfxMinted_unmFieldsLoop (p : String) :
    ∀ (fs : Fields) (st : EmitState),
      PfxMinted p st.ids → PfxMinted p (unmFieldsLoop fs st).ids
  | .nil, st => fun h => h
  | .cons t r n e rest, st => fun h => by
      simp only [unmFieldsLoop]
      exact pfxMinted_unmFieldsLoop p rest _ (pfxMinted_unmNext p e st h)

/-- Companion of `pfxMinted_unmNext` for the switch-case field loop. -/
theorem pfxMinted_unmSwitchCases (p : String) :
    ∀ (fs : Fields) (st : EmitState),
      PfxMinted p st.ids → PfxMinted p (unmSwitchCases fs st).ids
  | .nil, st => fun h => h
  | .cons t r n e rest, st => fun h => by
      simp only [unmSwitchCases]
      exact pfxMinted_unmSwitchCases p rest _
        (pfxMinted_unmNext p e _ (by simpa using h))
end

mutual
/-- The encode pass preserves the prefix invariant on the identifier
state. -/
theorem pfxMinted_encNext (p : String) :
    ∀ (e : Elem) (st : EmitState),
      PfxMinted p st.ids → PfxMinted p (encNext e st).ids
  | .base b, st => fun h => by
      by_cases hcv : b.convert = true <;>
        cases hbv : b.value <;>
          by_cases hsm : b.shimMode = ShimMode.cast <;>
            simp only [encNext, hcv, hbv, hsm, Bool.false_eq_true, if_true,
              if_false, pr_ids, declareVar_ids, fuseHook_ids,
              encWriteAndCheck_ids, randIdent] <;>
            first
              | exact h
              | exact pfxMinted_randIdent p st.ids h
              | simp_all
  | .ptr vn al v, st => fun h => by
      simp only [encNext, closeBlock_ids]
      exact pfxMinted_encNext p v _ (by simpa using h)
  | .slice vn al i els, st => fun h => by
      simp only [encNext, closeBlock_ids]
      exact pfxMinted_encNext p els _ (by simpa using h)
  | .arr vn al i sz els, st => fun h => by
      by_cases hb : isByteOrUint8Base els = true <;>
        simp only [encNext, hb, if_true, if_false, closeBlock_ids, pr_ids,
          fuseHook_ids, encWriteAndCheck_ids]
      · exact h
      · exact pfxMinted_encNext p els _ (by simpa using h)
  | .mp vn al ki vi x, st => fun h => by
      simp only [encNext, closeBlock_ids, pr_ids]
      exact pfxMinted_encNext p x _ (by simpa using h)
  | .strct vn al tu fs, st => fun h => by
      by_cases htu : tu = true <;>
        by_cases hz : fieldsCount fs = 0 <;>
          simp only [encNext, htu, hz, if_true, if_false, pr_ids,
            fuseAdd_ids, fuseHook_ids]
      · exact pfxMinted_encTupleFields p fs _ (by simpa using h)
      · exact pfxMinted_encTupleFields p fs _ (by simpa using h)
      · exact pfxMinted_encMapFields p fs _ (by simpa using h)
      · exact pfxMinted_encMapFields p fs _ (by simpa using h)

/-- Companion of `pfxMinted_encNext` for the tuple field loop. -/
theorem pfxMinted_encTupleFields (p : String) :
    ∀ (fs : Fields) (st : EmitState),
      PfxMinted p st.ids → PfxMinted p (encTupleFields fs st).ids
  | .nil, st => fun h => h
  | .cons t r n e rest, st => fun h => by
      simp only [encTupleFields]
      exact pfxMinted_encTupleFields p rest _ (pfxMinted_encNext p e st h)

/-- Companion of `pfxMinted_encNext` for the map field loop. -/
theorem pfxMinted_encMapFields (p : String) :
    ∀ (fs : Fields) (st : EmitState),
      PfxMinted p st.ids → PfxMinted p (encMapFields fs st).ids
  | .nil, st => fun h => h
  | .cons t r n e rest, st => fun h => by
      simp only [encMapFields]
      exact pfxMinted_encMapFields p rest _
        (pfxMinted_encNext p e _ (by simpa using h))
end

/-- methodReceiver preserves the prefix invariant (its varname rewrite
re-runs SetVarname, minting with the current prefix). -/
theorem pfxMinted_methodReceiver (p : String) (f : Elem) (ids : IdState)
    (h : PfxMinted p ids) : PfxMinted p (methodReceiver f ids).2.2 := by
  unfold methodReceiver
  split
  · exact h
  · exact pfxMinted_setVarname p f _ ids h

/-- unsetReceiver preserves the prefix invariant. -/
theorem pfxMinted_unsetReceiver (p : String) (f : Elem) (ids : IdState)
    (h : PfxMinted p ids) : PfxMinted p (unsetReceiver f ids).2 := by
  unfold unsetReceiver
  split
  · exact h
  · exact pfxMinted_setVarname p f _ ids h

/-- decodeGen.Execute preserves the prefix invariant. -/
theorem pfxMinted_decExecute (p : String) (f : Elem) (st : EmitState)
    (h : PfxMinted p st.ids) : PfxMinted p (decExecute f st).2.ids := by
  unfold decExecute
  split
  · refine pfxMinted_unsetReceiver p _ _ ?_
    simp only [nakedReturn_ids, pr_ids]
    refine pfxMinted_decNext p _ _ ?_
    simpa using pfxMinted_methodReceiver p f _ (by simpa using h)
  · exact h

/-- unmarshalGen.Execute preserves the prefix invariant. -/
theorem pfxMinted_unmExecute (p : String) (f : Elem) (st : EmitState)
    (h : PfxMinted p st.ids) : PfxMinted p (unmExecute f st).2.ids := by
  unfold unmExecute
  split
  · refine pfxMinted_unsetReceiver p _ _ ?_
    simp only [nakedReturn_ids, pr_ids]
    refine pfxMinted_unmNext p _ _ ?_
    simpa using pfxMinted_methodReceiver p f _ (by simpa using h)
  · exact h

/-- encodeGen.Execute preserves the prefix invariant. -/
theorem pfxMinted_encExecute (p : String) (f : Elem) (st : EmitState)
    (h : PfxMinted p st.ids) : PfxMinted p (encExecute f st).ids := by
  unfold encExecute
  split
  · simp only [nakedReturn_ids]
    exact pfxMinted_encNext p f _ (by simpa using h)
  · exact h

/-- Identifiers minted under prefix `za` and `zb` never coincide. -/
theorem za_ne_zb (s t : String) : "za" ++ s ≠ "zb" ++ t := by
  intro hEq
  have h2 : ("za" ++ s).data = ("zb" ++ t).data := by rw [hEq]
  have h3 : 'z' :: 'a' :: s.data = 'z' :: 'b' :: t.data := h2
  simp at h3

/-- C1 (amended): the per-pass `resetIdent("zb")` of `generatorSet.Print`
separates the identifiers minted during a pass's emission from those
minted during the varname-assignment phase (`SetVarname`, run under prefix
`za` by `printTo`): the two minted sets are disjoint. It is only this
phase separation — not cross-pass separation — that the prefix swap
guarantees; distinct passes reuse the same `zb`-prefixed names (see the
counterexample). -/
theorem C1_mint_disjoint_amended (e f : Elem) (a : String) (k : Nat)
    (x y : String)
    (hx : x ∈ (Elem.setVarname e a { pfx := "za", next := k, minted := [] }).2.minted)
    (hy : y ∈ (decExecute f printPassState).2.ids.minted
        ∨ y ∈ (unmExecute f printPassState).2.ids.minted
        ∨ y ∈ (encExecute f printPassState).ids.minted) :
    x ≠ y := by
  have hza : PfxMinted "za" { pfx := "za", next := k, minted := [] } :=
    ⟨rfl, by simp⟩
  obtain ⟨n, hn⟩ := (pfxMinted_setVarname "za" e a _ hza).2 x hx
  have hzb : PfxMinted "zb" printPassState.ids := ⟨rfl, by simp [printPassState]⟩
  have hy' : ∃ m, y = "zb" ++ pad4 m := by
    rcases hy with hy | hy | hy
    · exact (pfxMinted_decExecute "zb" f printPassState hzb).2 y hy
    · exact (pfxMinted_unmExecute "zb" f printPassState hzb).2 y hy
    · exact (pfxMinted_encExecute "zb" f printPassState hzb).2 y hy
  obtain ⟨m, hm⟩ := hy'
  rw [hn, hm]
  exact za_ne_zb _ _

/-- Witness for C1 (amended): naming a slice type mints `za0001` during
SetVarname, the decode pass on the empty struct mints `zb0001`, and the
two differ. -/
theorem C1_mint_disjoint_amended_witness :
    "za0001" ∈ (Elem.setVarname sliceOfString "z"
        { pfx := "za", next := 0, minted := [] }).2.minted
    ∧ "zb0001" ∈ (decExecute emptyStructE printPassState).2.ids.minted
    ∧ ("za0001" : String) ≠ "zb0001" :=
  ⟨by decide, by decide,
   C1_mint_disjoint_amended sliceOfString emptyStructE "z" 0 "za0001" "zb0001"
     (by decide) (.inl (by decide))⟩

end Msgp
